import Mathlib

/-!
Verification development for the dr-agent research pipeline.

The definitions below are a shallow embedding of the repository's core:

* `src/lib/agent/orchestrator.ts` — the callback-based pipeline
  (`runPlanningStage`, `runSearchStage`, `runWritingStage`,
  `runResearchPipeline`);
* `src/lib/agent/exa-client.ts` — `searchWeb` / `getContents`, which never
  throw and return tagged results (their outcomes are therefore inputs of
  the model, fields of `Env`);
* `src/app/api/research/route.ts` — the `POST` handler and its SSE stream;
* `src/lib/sandbox/runner.ts` — both `runResearchInSandbox` variants
  (async-generator variant and callback variant), modelled as action
  traces over an environment of external-call outcomes.

External capabilities (the Anthropic client, the Exa client, the Vercel
sandbox) are suspension points whose outcomes the orchestrator merely
inspects; each outcome is a field of the corresponding environment
structure, and the embedding computes the exact event/callback trace the
TypeScript code would produce for those outcomes.
-/

namespace DrAgent

set_option maxRecDepth 8192

/-- One discovered web document, `Source` from `src/types/research.ts`. -/
structure Source where
  id : String
  title : String
  url : String
  publishedDate : Option String
  author : Option String
  snippet : Option String
deriving DecidableEq, Repr

/-- One normalized result of `searchWeb` (exa-client.ts `SearchResult`). -/
structure SearchResult where
  id : String
  title : String
  url : String
  publishedDate : Option String
  author : Option String
  score : Option Int
deriving DecidableEq, Repr

/-- One normalized document returned by `getContents` (exa-client.ts
`ContentResult`). -/
structure ContentDoc where
  url : String
  title : String
  text : String
  publishedDate : Option String
  author : Option String
deriving DecidableEq, Repr

/-- Tagged outcome of one `searchWeb` call.  `searchWeb` never throws: a
thrown Exa-client error is converted to the `fail` tag
(exa-client.ts lines 964–998). -/
inductive SearchOutcome where
  | ok (results : List SearchResult)
  | fail (err : String)
deriving DecidableEq, Repr

/-- Tagged outcome of one `getContents` call (exa-client.ts, never throws). -/
inductive ContentsOutcome where
  | ok (contents : List ContentDoc)
  | fail (err : String)
deriving DecidableEq, Repr

/-- The `dateRange` field of a search plan; both bounds optional, matching
`plan.dateRange?.startDate` / `plan.dateRange?.endDate` accesses. -/
structure DateRange where
  startDate : Option String
  endDate : Option String
deriving DecidableEq, Repr

/-- The parsed search plan (`SearchPlan` in `src/types/research.ts`).
`JSON.parse` performs no shape validation, so every field that the
orchestrator dereferences unconditionally is required (`queries`), and
every field read behind `||`/`?.` or indexing is optional.  `searchTypes`
is `Option` because `plan.searchTypes[i]` throws a `TypeError` when the
field is absent, while an out-of-range index on a present array yields
`undefined` and falls back to `neural`. -/
structure SearchPlan where
  queries : List String
  searchTypes : Option (List String)
  domains : Option (List String)
  dateRange : Option DateRange
  rationale : Option String
deriving DecidableEq, Repr

/-- One callback invocation of the orchestrator
(`OrchestratorCallbacks`): `onStageChange`, `onStatus`, `onSource`,
`onError`.  Stage/status are the TypeScript string literals. -/
inductive Event where
  | stageChange (stage status : String) (message : Option String)
  | statusMsg (message stage : String)
  | sourceFound (src : Source)
  | errorMsg (message : String) (stage : Option String)
deriving DecidableEq, Repr

/-- Parameters of one `searchWeb` invocation made by `runSearchStage`
(orchestrator.ts lines 96–103). -/
structure SearchCall where
  query : String
  qtype : String
  numResults : Nat
  domains : Option (List String)
  startDate : Option String
  endDate : Option String
deriving DecidableEq, Repr

/-- `OrchestratorResult` from orchestrator.ts. -/
structure OrchestratorResult where
  success : Bool
  report : Option String
  sources : List Source
  error : Option String
deriving DecidableEq, Repr

/-! ### JSON values and the modelled `JSON.parse`

`runPlanningStage` applies `JSON.parse` to the regex-extracted region of
the planner's response.  The parser below follows the JSON grammar:
objects and arrays without trailing commas, strings with the standard
escapes (including `\u` hex escapes), numbers with optional sign,
fraction and exponent and no leading zeros, `true`/`false`/`null`, and
JSON whitespace; unescaped control characters inside strings are
rejected, as `JSON.parse` rejects them.  Two deliberate approximations,
neither consumed by any claim below: a `\u` escape naming an unpaired
surrogate decodes to the replacement `Char.ofNat` default rather than a
lone surrogate, and a number is kept as its source lexeme (its numeric
value is never read — the plan decoder only consumes strings and arrays
of strings).  Claims that must hold for the exact built-in `JSON.parse`
on every input do not go through this model: `runPlanningStageWith`
abstracts the whole parse-and-read step as a parameter, and this model
is used only at concrete inputs, where it agrees with `JSON.parse`. -/

/-- The opening-brace character, kept as a named constant. -/
def lbrace : Char := Char.ofNat 123

/-- The closing-brace character, kept as a named constant. -/
def rbrace : Char := Char.ofNat 125

/-- JSON values.  A number carries its source lexeme: the orchestrator
never reads a numeric value out of the plan, so no arithmetic
interpretation is needed. -/
inductive Json where
  | null
  | bool (b : Bool)
  | num (lexeme : String)
  | str (s : String)
  | arr (elems : List Json)
  | obj (fields : List (String × Json))

/-- Skip JSON whitespace. -/
def skipWs : List Char → List Char
  | [] => []
  | c :: cs => if c = ' ' ∨ c = '\n' ∨ c = '\t' ∨ c = '\r' then skipWs cs else c :: cs

/-- Decode a single-character escape after a backslash. -/
def unescapeChar (c : Char) : Option Char :=
  if c = '"' then some '"'
  else if c = '\\' then some '\\'
  else if c = '/' then some '/'
  else if c = 'n' then some '\n'
  else if c = 't' then some '\t'
  else if c = 'r' then some '\r'
  else if c = 'b' then some (Char.ofNat 8)
  else if c = 'f' then some (Char.ofNat 12)
  else none

/-- Value of a hexadecimal digit. -/
def hexVal (c : Char) : Option Nat :=
  if c.isDigit then some (c.toNat - 48)
  else if 'a' ≤ c ∧ c ≤ 'f' then some (c.toNat - 87)
  else if 'A' ≤ c ∧ c ≤ 'F' then some (c.toNat - 55)
  else none

/-- Consume the body of a JSON string up to (and including) the closing
quote, decoding escapes; unescaped control characters are rejected.
Returns the decoded characters and the rest of the input. -/
def takeStringChars : List Char → Option (List Char × List Char)
  | [] => none
  | c :: cs =>
    if c = '"' then some ([], cs)
    else if c = '\\' then
      match cs with
      | [] => none
      | e :: cs2 =>
        if e = 'u' then
          match cs2 with
          | h1 :: h2 :: h3 :: h4 :: cs3 =>
            match hexVal h1, hexVal h2, hexVal h3, hexVal h4 with
            | some a, some b, some d, some f =>
              (takeStringChars cs3).map fun p =>
                (Char.ofNat (((a * 16 + b) * 16 + d) * 16 + f) :: p.1, p.2)
            | _, _, _, _ => none
          | _ => none
        else
          match unescapeChar e with
          | none => none
          | some u => (takeStringChars cs2).map fun p => (u :: p.1, p.2)
    else if c.toNat < 32 then none
    else (takeStringChars cs).map fun p => (c :: p.1, p.2)

/-- Take a longest prefix of decimal digits. -/
def takeDigits : List Char → List Char × List Char
  | [] => ([], [])
  | c :: cs =>
    if c.isDigit then
      let p := takeDigits cs
      (c :: p.1, p.2)
    else ([], c :: cs)

/-- Lex the integer part of a JSON number: a single zero, or a nonzero
digit followed by digits (JSON forbids leading zeros). -/
def takeIntPart : List Char → Option (List Char × List Char)
  | [] => none
  | c :: cs =>
    if c = '0' then some ([c], cs)
    else if c.isDigit then
      let p := takeDigits cs
      some (c :: p.1, p.2)
    else none

/-- Lex the fractional part of a JSON number: empty, or a dot followed by
at least one digit. -/
def takeFrac : List Char → Option (List Char × List Char)
  | '.' :: cs =>
    match takeDigits cs with
    | ([], _) => none
    | (ds, r) => some ('.' :: ds, r)
  | cs => some ([], cs)

/-- Lex the exponent part of a JSON number: empty, or e/E with an
optional sign followed by at least one digit. -/
def takeExp : List Char → Option (List Char × List Char)
  | [] => some ([], [])
  | c :: cs =>
    if c = 'e' ∨ c = 'E' then
      match cs with
      | [] => none
      | s :: cs2 =>
        if s = '+' ∨ s = '-' then
          match takeDigits cs2 with
          | ([], _) => none
          | (ds, r) => some (c :: s :: ds, r)
        else
          match takeDigits (s :: cs2) with
          | ([], _) => none
          | (ds, r) => some (c :: ds, r)
    else some ([], c :: cs)

/-- Lex a complete JSON number lexeme (after any leading minus). -/
def numLexeme (cs : List Char) : Option (List Char × List Char) :=
  match takeIntPart cs with
  | none => none
  | some (ip, r1) =>
    match takeFrac r1 with
    | none => none
    | some (fp, r2) =>
      match takeExp r2 with
      | none => none
      | some (ep, r3) => some (ip ++ fp ++ ep, r3)

mutual

/-- Parse one JSON value (fuel-indexed recursive descent). -/
def parseVal : Nat → List Char → Option (Json × List Char)
  | 0, _ => none
  | Nat.succ fuel, cs =>
    match skipWs cs with
    | [] => none
    | 't' :: 'r' :: 'u' :: 'e' :: r => some (Json.bool true, r)
    | 'f' :: 'a' :: 'l' :: 's' :: 'e' :: r => some (Json.bool false, r)
    | 'n' :: 'u' :: 'l' :: 'l' :: r => some (Json.null, r)
    | c :: rest =>
      if c = '"' then
        (takeStringChars rest).map fun p => (Json.str (String.mk p.1), p.2)
      else if c = '[' then
        (parseElems fuel rest).map fun p => (Json.arr p.1, p.2)
      else if c = lbrace then
        (parseFields fuel rest).map fun p => (Json.obj p.1, p.2)
      else if c = '-' then
        (numLexeme rest).map fun p => (Json.num (String.mk ('-' :: p.1)), p.2)
      else if c.isDigit then
        (numLexeme (c :: rest)).map fun p => (Json.num (String.mk p.1), p.2)
      else none

/-- Parse array elements after the opening bracket, including the closing
bracket: an immediately closed array, or one-or-more comma-separated
values (no trailing comma). -/
def parseElems : Nat → List Char → Option (List Json × List Char)
  | 0, _ => none
  | Nat.succ fuel, cs =>
    match skipWs cs with
    | ']' :: r => some ([], r)
    | cs2 => parseElemsTail fuel cs2

/-- Parse one-or-more comma-separated array elements up to the closing
bracket. -/
def parseElemsTail : Nat → List Char → Option (List Json × List Char)
  | 0, _ => none
  | Nat.succ fuel, cs =>
    match parseVal fuel cs with
    | none => none
    | some (v, r) =>
      match skipWs r with
      | ']' :: r2 => some ([v], r2)
      | ',' :: r2 => (parseElemsTail fuel r2).map fun p => (v :: p.1, p.2)
      | _ => none

/-- Parse object members after the opening brace, including the closing
brace: an immediately closed object, or one-or-more comma-separated
members (no trailing comma). -/
def parseFields : Nat → List Char → Option (List (String × Json) × List Char)
  | 0, _ => none
  | Nat.succ fuel, cs =>
    match skipWs cs with
    | c :: r =>
      if c = rbrace then some ([], r) else parseFieldsTail fuel (c :: r)
    | [] => none

/-- Parse one-or-more comma-separated object members up to the closing
brace. -/
def parseFieldsTail : Nat → List Char → Option (List (String × Json) × List Char)
  | 0, _ => none
  | Nat.succ fuel, cs =>
    match skipWs cs with
    | c :: r =>
      if c = '"' then
        match takeStringChars r with
        | none => none
        | some (k, r1) =>
          match skipWs r1 with
          | ':' :: r2 =>
            match parseVal fuel r2 with
            | none => none
            | some (v, r3) =>
              match skipWs r3 with
              | c2 :: r4 =>
                if c2 = rbrace then some ([(String.mk k, v)], r4)
                else if c2 = ',' then
                  (parseFieldsTail fuel r4).map fun p => ((String.mk k, v) :: p.1, p.2)
                else none
              | [] => none
          | _ => none
      else none
    | [] => none

end

/-- Modelled `JSON.parse`: parse a complete JSON document (trailing
whitespace allowed, trailing garbage rejected).  The fuel bounds the
bracket-nesting depth, which the input length bounds in turn. -/
def jsonParse (s : String) : Option Json :=
  match parseVal (3 * s.length + 3) s.toList with
  | some (v, r) => if skipWs r = [] then some v else none
  | none => none

/-- Look up an object field by key, first occurrence
(JavaScript property access on the parsed object). -/
def lookupField (fs : List (String × Json)) (k : String) : Option Json :=
  (fs.find? fun p => p.1 == k).map fun p => p.2

/-- Read a JSON value as a string. -/
def asString : Json → Option String
  | Json.str s => some s
  | _ => none

/-- Read a JSON value as an array of strings. -/
def asStringList : Json → Option (List String)
  | Json.arr xs => xs.mapM asString
  | _ => none

/-- Interpret a parsed JSON value as the `SearchPlan` the orchestrator
dereferences.  `none` models the paths on which the TypeScript code would
throw when touching `plan.queries.length`: the parsed value not an object,
or `queries` absent or `null`.  Modelled fragment: `queries` present as an
array of strings (a present `queries` of another shape — a string, an
array of non-strings — makes the code proceed through JavaScript's
length/index view of that value and lies outside this decoder, which
rejects it; no claim below depends on such inputs, and claims that must
hold for the exact built-in behavior use the abstract parse step of
`runPlanningStageWith` instead).  All other fields are read leniently,
as optional chaining / `||` fallbacks do: `searchTypes` and `domains`
are taken when they are arrays of strings and treated as absent
otherwise, `dateRange` is taken when it is an object and treated as
absent otherwise. -/
def decodePlan : Json → Option SearchPlan
  | Json.obj fs =>
    match (lookupField fs "queries").bind asStringList with
    | none => none
    | some qs =>
      some
        { queries := qs
          searchTypes := (lookupField fs "searchTypes").bind asStringList
          domains := (lookupField fs "domains").bind asStringList
          dateRange :=
            match lookupField fs "dateRange" with
            | some (Json.obj dfs) =>
              some ⟨(lookupField dfs "startDate").bind asString,
                    (lookupField dfs "endDate").bind asString⟩
            | _ => none
          rationale := (lookupField fs "rationale").bind asString }
  | _ => none

/-! ### The planning stage's region extraction

orchestrator.ts line 55 extracts the plan with
`content.text.match(/\x7b[\s\S]*\x7d/)`.  The leading `\x7b` anchors the
match at the first opening brace, and the greedy `[\s\S]*` followed by
`\x7d` extends it to the last closing brace of the whole text.  So the
matched region is the substring from the first opening brace to the last
closing brace, provided the latter comes after the former. -/

/-- The region `content.text.match(/\x7b[\s\S]*\x7d/)` extracts:
from the first opening brace to the last closing brace. -/
def extractJsonRegion (s : String) : Option String :=
  let cs := s.toList
  match cs.findIdx? (fun c => c = lbrace) with
  | none => none
  | some i =>
    match cs.reverse.findIdx? (fun c => c = rbrace) with
    | none => none
    | some k =>
      let j := cs.length - 1 - k
      if i < j then some (String.mk ((cs.drop i).take (j - i + 1))) else none

/-- Scan for the end of a balanced-brace region, given the current depth
and the (reversed) characters consumed so far. -/
def scanBalanced : List Char → Nat → List Char → Option (List Char)
  | [], _, _ => none
  | c :: cs, depth, acc =>
    if c = lbrace then scanBalanced cs (depth + 1) (c :: acc)
    else if c = rbrace then
      match depth with
      | 0 => none
      | 1 => some (List.reverse (c :: acc))
      | Nat.succ (Nat.succ d) => scanBalanced cs (Nat.succ d) (c :: acc)
    else scanBalanced cs depth (c :: acc)

/-- Modelled from the spec: the parsing policy sentence — "extract the
first top-level `...` balanced-brace region from the response text".
This is the region from the first opening brace to the matching closing
brace at depth zero.  It is compared against `extractJsonRegion`, the
extraction the code performs. -/
def specFirstBalancedRegion (s : String) : Option String :=
  match (s.toList).dropWhile (fun c => c ≠ lbrace) with
  | [] => none
  | c :: cs => (scanBalanced cs 1 [c]).map String.mk

/-- Region extraction followed by `JSON.parse` and the plan-shape reads,
as the code performs it. -/
def parsePlanJson (region : String) : Option SearchPlan :=
  (jsonParse region).bind decodePlan

/-- Modelled from the spec: the plan the planning stage would produce if
it followed the spec's stated policy (first balanced-brace region,
then parse). -/
def specPlannedResult (text : String) : Option SearchPlan :=
  (specFirstBalancedRegion text).bind parsePlanJson

/-! ### Planning stage -/

/-- Stand-in for the `SyntaxError` message `JSON.parse` throws; the exact
text is V8-dependent and does not affect control flow. -/
def jsonSyntaxErrorText : String := "Unexpected token in JSON"

/-- Stand-in for the `TypeError` thrown when dereferencing a missing
`queries` field on the parsed plan. -/
def planShapeErrorText : String := "Cannot read properties of undefined"

/-- The parse step of `runPlanningStage` (orchestrator.ts lines 55–60):
regex extraction, `JSON.parse`, and the first dereference of the plan.
Distinct failure messages mirror the three distinct throws. -/
def parsePlanFromText (text : String) : Except String SearchPlan :=
  match extractJsonRegion text with
  | none => Except.error "Could not parse search plan from response"
  | some region =>
    match jsonParse region with
    | none => Except.error jsonSyntaxErrorText
    | some j =>
      match decodePlan j with
      | none => Except.error planShapeErrorText
      | some p => Except.ok p

/-- The two callbacks fired before the planner capability is invoked. -/
def planningIntro : List Event :=
  [Event.stageChange "planning" "active" (some "Analyzing research topic"),
   Event.statusMsg "Creating search strategy..." "planning"]

/-- The catch-branch callbacks of `runPlanningStage`. -/
def planningFailureEvents (msg : String) : List Event :=
  [Event.stageChange "planning" "error" (some msg),
   Event.errorMsg msg (some "planning")]

/-- `runPlanningStage` (orchestrator.ts lines 27–72).  The argument is the
outcome of the `anthropic.messages.create` call: `Except.error e` models a
thrown capability error (including a non-`text` first content block),
`Except.ok text` the returned response text.  The prompt construction is
pure string building with no observable effect and is not modelled.
Returns the callback trace and the stage's return value. -/
def runPlanningStage (resp : Except String String) : List Event × Option SearchPlan :=
  match resp with
  | Except.error e => (planningIntro ++ planningFailureEvents e, none)
  | Except.ok text =>
    match parsePlanFromText text with
    | Except.error e => (planningIntro ++ planningFailureEvents e, none)
    | Except.ok plan =>
      (planningIntro ++
        [Event.statusMsg ("Generated " ++ toString plan.queries.length ++ " search queries") "planning",
         Event.stageChange "planning" "completed"
           (some ("Search strategy ready with " ++ toString plan.queries.length ++ " queries"))],
       some plan)

/-- The modelled parse-and-read step on an extracted region: modelled
`JSON.parse`, then the plan-field reads, with the distinct throw
messages. -/
def modelParsePlan (region : String) : Except String SearchPlan :=
  match jsonParse region with
  | none => Except.error jsonSyntaxErrorText
  | some j =>
    match decodePlan j with
    | none => Except.error planShapeErrorText
    | some p => Except.ok p

/-- `runPlanningStage` with the `JSON.parse`-and-cast step on the
extracted region abstracted as a parameter.  The built-in `JSON.parse`
and the subsequent `plan.queries` reads are external computations, like
the capability calls elsewhere in this file; `parse` is their joint
outcome on the extracted region, with `Except.error` modelling a throw
(caught by the stage's catch branch).  `runPlanningStage` is the
instance of this function at the modelled parse step
(`runPlanningStage_eq_with`). -/
def runPlanningStageWith (parse : String → Except String SearchPlan)
    (resp : Except String String) : List Event × Option SearchPlan :=
  match resp with
  | Except.error e => (planningIntro ++ planningFailureEvents e, none)
  | Except.ok text =>
    match (match extractJsonRegion text with
           | none => Except.error "Could not parse search plan from response"
           | some region => parse region) with
    | Except.error e => (planningIntro ++ planningFailureEvents e, none)
    | Except.ok plan =>
      (planningIntro ++
        [Event.statusMsg ("Generated " ++ toString plan.queries.length ++ " search queries") "planning",
         Event.stageChange "planning" "completed"
           (some ("Search strategy ready with " ++ toString plan.queries.length ++ " queries"))],
       some plan)

/-! ### Search stage -/

/-- A discovered result turned into a `Source` record
(orchestrator.ts lines 109–115); the snippet is filled in later. -/
def mkSource (r : SearchResult) : Source :=
  { id := r.id, title := r.title, url := r.url,
    publishedDate := r.publishedDate, author := r.author, snippet := none }

/-- The results of one tagged outcome that the loop body iterates over;
a `fail` outcome contributes nothing (the `searchResult.success` check). -/
def okOf : SearchOutcome → List SearchResult
  | SearchOutcome.ok rs => rs
  | SearchOutcome.fail _ => []

/-- The results of a list of results that pass the `seenUrls` check, with
the set extended as the loop does. -/
def newResults (seen : List String) : List SearchResult → List SearchResult
  | [] => []
  | r :: rs =>
    if seen.contains r.url then newResults seen rs
    else r :: newResults (r.url :: seen) rs

/-- The `searchWeb` parameters built for query index `i`
(orchestrator.ts lines 92–103): `plan.searchTypes[i] || 'neural'`,
five results, the plan's domains and optional date bounds. -/
def mkSearchCall (pl : SearchPlan) (ts : List String) (i : Nat) (q : String) : SearchCall :=
  { query := q
    qtype := if ts.getD i "" = "" then "neural" else ts.getD i ""
    numResults := 5
    domains := pl.domains
    startDate := pl.dateRange.bind DateRange.startDate
    endDate := pl.dateRange.bind DateRange.endDate }

/-- Accumulated output of the search loop. -/
structure LoopOut where
  events : List Event
  calls : List SearchCall
  srcs : List Source
deriving DecidableEq, Repr

/-- The `for` loop of `runSearchStage` (orchestrator.ts lines 90–121) over
the remaining `(index, query)` pairs, given the URLs already seen.  Each
iteration fires `onStatus`, performs the `searchWeb` call, and records a
`Source` plus an `onSource` callback for each not-yet-seen URL of a
successful outcome. -/
def searchLoop (search : Nat → SearchOutcome) (pl : SearchPlan) (ts : List String) :
    List (Nat × String) → List String → LoopOut
  | [], _ => ⟨[], [], []⟩
  | (i, q) :: rest, seen =>
    let fresh := newResults seen (okOf (search i))
    let tail := searchLoop search pl ts rest (seen ++ fresh.map fun r => r.url)
    ⟨Event.statusMsg ("Searching: \"" ++ q ++ "\"") "searching"
       :: (fresh.map fun r => Event.sourceFound (mkSource r)) ++ tail.events,
     mkSearchCall pl ts i q :: tail.calls,
     fresh.map mkSource ++ tail.srcs⟩

/-- Snippet attachment for one fetched document (orchestrator.ts lines
139–143): `sources.find(s => s.url === content.url)` and an in-place
snippet update — the first matching source, if any, gets
`content.text.slice(0, 200) + '...'`. -/
def setSnippet (d : ContentDoc) (s : Source) : Source :=
  { s with snippet := some (d.text.take 200 ++ "...") }

/-- Update the first source whose URL matches the document, as the
`find`-then-mutate does. -/
def updateFirst (srcs : List Source) (d : ContentDoc) : List Source :=
  match srcs with
  | [] => []
  | s :: rest => if s.url = d.url then setSnippet d s :: rest else s :: updateFirst rest d

/-- Apply all fetched documents in order (the `for (const content of
contentResult.contents)` loop's effect on the source array). -/
def enrichSources (srcs : List Source) (docs : List ContentDoc) : List Source :=
  docs.foldl updateFirst srcs

/-- One entry of the `contents` accumulator
(orchestrator.ts line 137). -/
def formatContent (d : ContentDoc) : String :=
  "## " ++ d.title ++ "\nURL: " ++ d.url ++ "\n\n" ++ d.text

/-- Stand-in for the `TypeError` thrown by `plan.searchTypes[i]` when the
parsed plan has no `searchTypes` array. -/
def searchTypesErrorText : String := "Cannot read properties of undefined"

/-- Complete output of the searching stage: callback trace, the
`searchWeb` invocations, the `getContents` invocations (URL list and
character cap), and the returned value. -/
structure SearchStageOut where
  events : List Event
  calls : List SearchCall
  fetchCalls : List (List String × Nat)
  value : Option (List Source × List String)
deriving DecidableEq, Repr

/-- The body of `runSearchStage` once the loop can run: the search loop
over `plan.queries` (with `seenUrls` initially empty), then the single
guarded `getContents` call for the first eight sources with an
8000-character cap (orchestrator.ts lines 123–151). -/
def searchStageBody (search : Nat → SearchOutcome) (contents : ContentsOutcome)
    (pl : SearchPlan) (ts : List String) : SearchStageOut :=
  let lo := searchLoop search pl ts pl.queries.enum []
  let topUrls := (lo.srcs.take 8).map fun s => s.url
  let fetched : List (List String × Nat) × List Source × List String :=
    if topUrls = [] then ([], lo.srcs, [])
    else
      match contents with
      | ContentsOutcome.ok docs =>
        ([(topUrls, 8000)], enrichSources lo.srcs docs, docs.map formatContent)
      | ContentsOutcome.fail _ => ([(topUrls, 8000)], lo.srcs, [])
  { events :=
      Event.stageChange "searching" "active" (some "Starting web searches")
        :: lo.events
        ++ [Event.statusMsg ("Found " ++ toString lo.srcs.length ++ " unique sources, fetching content...") "searching",
            Event.statusMsg ("Gathered content from " ++ toString fetched.2.2.length ++ " sources") "searching",
            Event.stageChange "searching" "completed" (some ("Collected " ++ toString lo.srcs.length ++ " sources"))]
    calls := lo.calls
    fetchCalls := fetched.1
    value := some (fetched.2.1, fetched.2.2) }

/-- `runSearchStage` (orchestrator.ts lines 77–158).  When the parsed plan
has no `searchTypes` array and at least one query, the first loop
iteration throws at `plan.searchTypes[i]` before its `onStatus` fires; the
catch branch then reports the stage error.  Otherwise the stage runs to
completion — `searchWeb` and `getContents` return tagged failures and
never throw, so individual failures are skipped. -/
def runSearchStage (search : Nat → SearchOutcome) (contents : ContentsOutcome)
    (pl : SearchPlan) : SearchStageOut :=
  match pl.searchTypes with
  | some ts => searchStageBody search contents pl ts
  | none =>
    match pl.queries with
    | [] => searchStageBody search contents pl []
    | _ :: _ =>
      { events :=
          [Event.stageChange "searching" "active" (some "Starting web searches"),
           Event.stageChange "searching" "error" (some searchTypesErrorText),
           Event.errorMsg searchTypesErrorText (some "searching")]
        calls := []
        fetchCalls := []
        value := none }

/-! ### Writing stage and pipeline -/

/-- The two callbacks fired before the writer capability is invoked. -/
def writingIntro : List Event :=
  [Event.stageChange "writing" "active" (some "Synthesizing research findings"),
   Event.statusMsg "Generating comprehensive report..." "writing"]

/-- `runWritingStage` (orchestrator.ts lines 163–213).  The argument is
the outcome of the writer `anthropic.messages.create` call; the prompt
construction from sources and contents is pure string building with no
observable effect on the trace and is not modelled. -/
def runWritingStage (resp : Except String String) : List Event × Option String :=
  match resp with
  | Except.error e =>
    (writingIntro ++
      [Event.stageChange "writing" "error" (some e), Event.errorMsg e (some "writing")], none)
  | Except.ok text =>
    (writingIntro ++
      [Event.statusMsg "Report generation complete" "writing",
       Event.stageChange "writing" "completed" (some "Report ready")], some text)

/-- Outcomes of the external capability calls a pipeline run can make:
the planner completion, each `searchWeb` call (indexed by query
position), the single `getContents` call, and the writer completion. -/
structure Env where
  planner : Except String String
  search : Nat → SearchOutcome
  contents : ContentsOutcome
  writer : Except String String

/-- Complete observable output of one `runResearchPipeline` run. -/
structure PipelineOut where
  events : List Event
  searchCalls : List SearchCall
  fetchCalls : List (List String × Nat)
  result : OrchestratorResult

/-- `runResearchPipeline` (orchestrator.ts lines 218–251): planning, then
searching, then writing, each aborting the pipeline with a failure result
when the stage returns null; `allSources` receives the search stage's
sources only after that stage succeeds. -/
def runResearchPipeline (env : Env) : PipelineOut :=
  match runPlanningStage env.planner with
  | (pe, none) =>
    ⟨pe, [], [], ⟨false, none, [], some "Planning stage failed"⟩⟩
  | (pe, some plan) =>
    let so := runSearchStage env.search env.contents plan
    match so.value with
    | none =>
      ⟨pe ++ so.events, so.calls, so.fetchCalls,
       ⟨false, none, [], some "Search stage failed"⟩⟩
    | some (srcs, _) =>
      match runWritingStage env.writer with
      | (we, none) =>
        ⟨pe ++ so.events ++ we, so.calls, so.fetchCalls,
         ⟨false, none, srcs, some "Report writing stage failed"⟩⟩
      | (we, some rep) =>
        ⟨pe ++ so.events ++ we ++
           [Event.stageChange "completed" "completed" (some "Research complete")],
         so.calls, so.fetchCalls,
         ⟨true, some rep, srcs, none⟩⟩

/-! ### Observation helpers -/

/-- Whether an event is a `stage_change` for the given stage. -/
def mentionsStage (e : Event) (st : String) : Bool :=
  match e with
  | Event.stageChange s _ _ => s == st
  | _ => false

/-- Whether the trace contains any `stage_change` event for the stage. -/
def hasStageEvent (evs : List Event) (st : String) : Bool :=
  evs.any fun e => mentionsStage e st

/-- Whether the trace contains a `stage_change` event with the given
stage and status. -/
def hasStageStatus (evs : List Event) (st status : String) : Bool :=
  evs.any fun e =>
    match e with
    | Event.stageChange s t _ => s == st && t == status
    | _ => false

/-- Whether an event is a `stage_change` with the given stage and status. -/
def isStageStatus (e : Event) (st status : String) : Bool :=
  match e with
  | Event.stageChange s t _ => s == st && t == status
  | _ => false

/-- The sources carried by `onSource` callbacks, in emission order. -/
def emittedSources (evs : List Event) : List Source :=
  evs.filterMap fun e =>
    match e with
    | Event.sourceFound s => some s
    | _ => none

/-- Forget the snippet field (used to compare discovery-time records with
their later in-place-enriched versions). -/
def eraseSnippet (s : Source) : Source :=
  { s with snippet := none }

/-- The concatenated results of the successful `searchWeb` calls, in call
order, for the given index list. -/
def okResults (search : Nat → SearchOutcome) : List Nat → List SearchResult
  | [] => []
  | i :: is => okOf (search i) ++ okResults search is

/-- All results of successful calls for `n` queries, in discovery order. -/
def successResults (search : Nat → SearchOutcome) (n : Nat) : List SearchResult :=
  okResults search (List.range n)

/-- Keep the first occurrence of each URL. -/
def firstOccurs : List SearchResult → List SearchResult
  | [] => []
  | r :: rs => r :: firstOccurs (rs.filter fun x => x.url ≠ r.url)
termination_by l => l.length
decreasing_by
  simp only [List.length_cons]
  exact Nat.lt_succ_of_le (List.length_filter_le _ _)

/-- The session's deduplicated source list: first occurrence of each URL
among all successful results, in discovery order. -/
def discoveredSources (search : Nat → SearchOutcome) (n : Nat) : List Source :=
  (firstOccurs (successResults search n)).map mkSource

/-- The snippet state of a source after all fetched documents are applied:
the last matching document wins; no match leaves the source unchanged. -/
def snippetAfter (docs : List ContentDoc) (s : Source) : Source :=
  match (docs.filter fun d => d.url == s.url).getLast? with
  | none => s
  | some d => setSnippet d s

/-! ### The `POST /research` route (src/app/api/research/route.ts)

The handler validates the request body, checks the two API keys, then
opens a `ReadableStream` whose `start` callback runs the selected
execution path inside a `try`/`catch`: on normal completion it enqueues
the `data: [DONE]` sentinel and closes; on a caught error it enqueues one
`error` event and closes.  The inner execution path is modelled by the
chunks it enqueued before finishing (`emitted`) and whether it finished
normally or threw (`runError`); this covers both the sandbox and the
direct path, whose message translation is claim-irrelevant here. -/

/-- The request body's `topic` field as the validation sees it: absent
(or any falsy value), a truthy non-string value, or a string. -/
inductive TopicField where
  | absent
  | nonString
  | str (s : String)
deriving DecidableEq, Repr

/-- Inputs of one `POST` invocation. -/
structure RouteEnv where
  topic : TopicField
  anthropicKey : Bool
  exaKey : Bool
  emitted : List String
  runError : Option String
deriving DecidableEq, Repr

/-- The handler's response: an error JSON response, or the SSE stream
with its full ordered chunk list. -/
inductive RouteResponse where
  | json (status : Nat) (body : String)
  | stream (chunks : List String)
deriving DecidableEq, Repr

/-- The terminal sentinel chunk (route.ts line 225). -/
def doneChunk : String := "data: [DONE]\n\n"

/-- The chunk enqueued by the stream handler's catch branch
(route.ts lines 230–232). -/
def errorChunk (msg : String) : String :=
  "data: \x7b\"type\":\"error\",\"content\":\"" ++ msg ++ "\"\x7d\n\n"

/-- Body of the 400 validation response. -/
def topicRequiredBody : String := "\x7b\"error\":\"Topic is required\"\x7d"

/-- Body of the 500 response for a missing Anthropic key. -/
def anthropicKeyMissingBody : String := "\x7b\"error\":\"ANTHROPIC_API_KEY is not configured\"\x7d"

/-- Body of the 500 response for a missing Exa key. -/
def exaKeyMissingBody : String := "\x7b\"error\":\"EXA_API_KEY is not configured\"\x7d"

/-- The full chunk sequence produced by the stream's `start` callback:
the inner path's chunks, then either the sentinel (normal completion) or
a single error event (caught throw) — and nothing after either. -/
def handleStream (emitted : List String) (runError : Option String) : List String :=
  match runError with
  | none => emitted ++ [doneChunk]
  | some e => emitted ++ [errorChunk e]

/-- The validation predicate of route.ts lines 187–192:
`!topic || typeof topic !== "string"` — rejects absent/falsy topics and
non-string topics; any non-empty string passes. -/
def topicInvalid : TopicField → Bool
  | TopicField.absent => true
  | TopicField.nonString => true
  | TopicField.str s => s == ""

/-- The `POST` handler (route.ts lines 183–253): validation, key checks,
then the stream. -/
def POST (env : RouteEnv) : RouteResponse :=
  if topicInvalid env.topic then RouteResponse.json 400 topicRequiredBody
  else if env.anthropicKey = false then RouteResponse.json 500 anthropicKeyMissingBody
  else if env.exaKey = false then RouteResponse.json 500 exaKeyMissingBody
  else RouteResponse.stream (handleStream env.emitted env.runError)

/-! ### The sandbox runners (src/lib/sandbox/runner.ts)

Two variants exist.  The async-generator variant creates the sandbox
inside a `try` with `sandbox.stop()` in the `finally` (errors from `stop`
swallowed); the callback variant creates the sandbox before a
`try`/`finally` whose `finally` stops it.  Each external step's outcome
is a field of `SbEnv`; the model records the provision/teardown actions
and, for the generator variant, the yielded messages.  The line-oriented
stdout translation (`processLine`, `__MSG__` parsing) feeds callbacks that
no claim below depends on and is not modelled. -/

/-- Result of a sandbox `runCommand`. -/
structure CmdResult where
  stdout : String
  stderr : String
  exitCode : Int
deriving DecidableEq, Repr

/-- Sandbox lifecycle actions. -/
inductive SbAction where
  | create
  | stop
deriving DecidableEq, Repr

/-- Outcomes of the external steps a sandbox run performs.  `Except.error`
models the step throwing. -/
structure SbEnv where
  token : Bool
  project : Bool
  create : Except String Unit
  writeOutcome : Except String Unit
  install : Except String CmdResult
  run : Except String CmdResult
deriving Repr

/-- Messages yielded by the generator variant. -/
inductive SandboxMsg where
  | statusMsg (data : String)
  | errorMsg (data : String)
deriving DecidableEq, Repr

/-- The async-generator `runResearchInSandbox` (runner.ts lines 373–539):
credential checks, `Sandbox.create`, `writeFiles`, `npm install` with an
exit-code check, the research run with stderr/exit-code reporting; any
throw is caught and yielded as an `error` message, and the `finally`
stops the sandbox whenever one was created.  Returns the lifecycle
actions and the yielded messages. -/
def runResearchInSandboxGen (env : SbEnv) : List SbAction × List SandboxMsg :=
  let pre := [SandboxMsg.statusMsg "Creating sandbox environment..."]
  if env.token = false then
    ([], pre ++ [SandboxMsg.errorMsg "VERCEL_TOKEN is required for sandbox execution"])
  else if env.project = false then
    ([], pre ++ [SandboxMsg.errorMsg "VERCEL_PROJECT_ID is required for sandbox execution"])
  else
    match env.create with
    | Except.error e => ([], pre ++ [SandboxMsg.errorMsg e])
    | Except.ok _ =>
      let m1 := pre ++ [SandboxMsg.statusMsg "Sandbox created, setting up project...",
                        SandboxMsg.statusMsg "Writing project files..."]
      match env.writeOutcome with
      | Except.error e =>
        ([SbAction.create, SbAction.stop], m1 ++ [SandboxMsg.errorMsg ("Failed to write files: " ++ e)])
      | Except.ok _ =>
        let m2 := m1 ++ [SandboxMsg.statusMsg "Installing dependencies..."]
        match env.install with
        | Except.error e => ([SbAction.create, SbAction.stop], m2 ++ [SandboxMsg.errorMsg e])
        | Except.ok ir =>
          if ir.exitCode ≠ 0 then
            ([SbAction.create, SbAction.stop],
             m2 ++ [SandboxMsg.errorMsg ("npm install failed (exit " ++ toString ir.exitCode ++ "): "
                      ++ (if ir.stderr ≠ "" then ir.stderr else ir.stdout))])
          else
            let m3 := m2 ++ [SandboxMsg.statusMsg "Dependencies installed, starting research..."]
            match env.run with
            | Except.error e => ([SbAction.create, SbAction.stop], m3 ++ [SandboxMsg.errorMsg e])
            | Except.ok rr =>
              let stderrYield :=
                if rr.stderr ≠ "" ∧ rr.exitCode ≠ 0 then
                  [SandboxMsg.errorMsg ("Script stderr: " ++ rr.stderr)]
                else []
              let exitYield :=
                if rr.exitCode ≠ 0 then
                  [SandboxMsg.errorMsg ("Research script failed (exit " ++ toString rr.exitCode ++ "): "
                     ++ (if rr.stderr ≠ "" then rr.stderr
                         else if rr.stdout ≠ "" then rr.stdout else "No output captured"))]
                else []
              ([SbAction.create, SbAction.stop],
               m3 ++ stderrYield ++ exitYield ++ [SandboxMsg.statusMsg "Sandbox cleanup complete"])

/-- The callback `runResearchInSandbox` (runner.ts lines 790–919):
credential checks and `Sandbox.create` happen before the `try`; the
`try`/`finally` then writes files, installs (exit code unchecked in this
variant), and runs the script, with `sandbox.stop()` in the `finally` on
every path.  Returns the lifecycle actions and either the thrown error or
the `success` flag of the returned `SandboxResult` (the stdout message
parsing that fills its payload does not affect control flow and is not
modelled). -/
def runResearchInSandboxCb (env : SbEnv) : List SbAction × Except String Bool :=
  if env.token = false then
    ([], Except.error "VERCEL_TOKEN is required for sandbox execution")
  else if env.project = false then
    ([], Except.error "VERCEL_PROJECT_ID is required for sandbox execution")
  else
    match env.create with
    | Except.error e => ([], Except.error e)
    | Except.ok _ =>
      match env.writeOutcome with
      | Except.error e => ([SbAction.create, SbAction.stop], Except.error e)
      | Except.ok _ =>
        match env.install with
        | Except.error e => ([SbAction.create, SbAction.stop], Except.error e)
        | Except.ok _ =>
          match env.run with
          | Except.error e => ([SbAction.create, SbAction.stop], Except.error e)
          | Except.ok rr =>
            ([SbAction.create, SbAction.stop], Except.ok (rr.exitCode == 0))

/-! ### Claim checkers (Boolean formulations used by the theorems) -/

/-- Checks, on a pipeline run, that an `error` stage status is terminal:
a planning error implies no searching/writing `stage_change` ever appears
and the run fails with the planning failure result, and a searching error
implies no writing `stage_change` appears and the run fails with the
search failure result. -/
def errorHaltsPipeline (out : PipelineOut) : Bool :=
  (!(hasStageStatus out.events "planning" "error")
      || (!(hasStageEvent out.events "searching") && !(hasStageEvent out.events "writing")
          && !out.result.success && decide (out.result.error = some "Planning stage failed")))
  && (!(hasStageStatus out.events "searching" "error")
      || (!(hasStageEvent out.events "writing")
          && !out.result.success && decide (out.result.error = some "Search stage failed")))

/-- Checks, on a `POST` run that opens a stream, that the stream ends with
the sentinel when the inner path completed, and ends with the single error
event — with no sentinel appended — when the inner path threw. -/
def streamEndsProperly (env : RouteEnv) : Bool :=
  match POST env with
  | RouteResponse.json _ _ => true
  | RouteResponse.stream chunks =>
    match env.runError with
    | none => decide (chunks.getLast? = some doneChunk)
    | some e =>
      decide (chunks.getLast? = some (errorChunk e))
        && decide (chunks.count doneChunk = env.emitted.count doneChunk)

/-- Checks the amended validation contract of `POST`: status 400 with the
`Topic is required` body exactly for an absent, non-string, or empty
topic; other JSON responses only for a missing key; the stream exactly
when the topic is a non-empty string and both keys are present. -/
def validationAmendedOk (env : RouteEnv) : Bool :=
  match POST env with
  | RouteResponse.json 400 body => topicInvalid env.topic && decide (body = topicRequiredBody)
  | RouteResponse.json _ _ =>
    !(topicInvalid env.topic) && (!env.anthropicKey || !env.exaKey)
  | RouteResponse.stream _ => !(topicInvalid env.topic) && env.anthropicKey && env.exaKey

/-! ### Lemmas: the seen-set loop computes first occurrences -/

theorem contains_true_of_mem {l : List String} {a : String} (h : a ∈ l) :
    l.contains a = true :=
  List.elem_iff.2 h

theorem contains_false_of_not_mem {l : List String} {a : String} (h : a ∉ l) :
    l.contains a = false := by
  cases hv : l.contains a
  · rfl
  · exact absurd (List.elem_iff.1 hv) h

theorem newResults_congr (l : List SearchResult) :
    ∀ {s₁ s₂ : List String}, (∀ u, u ∈ s₁ ↔ u ∈ s₂) →
      newResults s₁ l = newResults s₂ l := by
  induction l with
  | nil => intro s₁ s₂ _; rfl
  | cons r rs ih =>
    intro s₁ s₂ h
    by_cases hm : r.url ∈ s₁
    · rw [newResults, newResults, contains_true_of_mem hm,
        contains_true_of_mem ((h r.url).1 hm)]
      simp only [if_true]
      exact ih h
    · rw [newResults, newResults, contains_false_of_not_mem hm,
        contains_false_of_not_mem (fun hx => hm ((h r.url).2 hx))]
      simp only [Bool.false_eq_true, if_false]
      exact congrArg _ (ih fun u => by simp only [List.mem_cons, h u])

theorem newResults_append (xs ys : List SearchResult) :
    ∀ seen, newResults seen (xs ++ ys)
      = newResults seen xs
        ++ newResults (seen ++ (newResults seen xs).map fun r => r.url) ys := by
  induction xs with
  | nil =>
    intro seen
    simp only [List.nil_append, newResults, List.map_nil, List.append_nil]
  | cons x xs ih =>
    intro seen
    by_cases hm : x.url ∈ seen
    · rw [List.cons_append, newResults, newResults, contains_true_of_mem hm]
      simp only [if_true]
      exact ih seen
    · rw [List.cons_append, newResults, newResults, contains_false_of_not_mem hm]
      simp only [Bool.false_eq_true, if_false, List.map_cons, List.cons_append]
      rw [ih (x.url :: seen)]
      refine congrArg _ (congrArg _ (newResults_congr ys fun u => ?_))
      simp only [List.mem_append, List.mem_cons]
      tauto

theorem newResults_eq_firstOccurs (l : List SearchResult) :
    ∀ seen, newResults seen l
      = firstOccurs (l.filter fun r => !(seen.contains r.url)) := by
  induction l with
  | nil => intro seen; simp [newResults, List.filter_nil, firstOccurs]
  | cons r rs ih =>
    intro seen
    by_cases hm : r.url ∈ seen
    · rw [newResults, contains_true_of_mem hm]
      simp only [if_true, List.filter_cons, contains_true_of_mem hm, Bool.not_true,
        Bool.false_eq_true, if_false]
      exact ih seen
    · rw [newResults, contains_false_of_not_mem hm]
      simp only [Bool.false_eq_true, if_false, List.filter_cons,
        contains_false_of_not_mem hm, Bool.not_false, if_true]
      rw [firstOccurs, ih (r.url :: seen), List.filter_filter]
      refine congrArg _ (congrArg _ (List.filter_congr fun x _ => ?_))
      by_cases hx : x.url = r.url
      · simp [hx, List.contains_cons]
      · by_cases hs : x.url ∈ seen
        · simp [List.contains_cons, contains_true_of_mem hs, hx]
        · simp [List.contains_cons, contains_false_of_not_mem hs, hx,
            beq_eq_false_iff_ne.2 hx]

theorem newResults_nil_seen (l : List SearchResult) :
    newResults [] l = firstOccurs l := by
  rw [newResults_eq_firstOccurs l []]
  refine congrArg _ ?_
  refine List.filter_eq_self.2 fun a _ => ?_
  rfl

theorem firstOccurs_subset {l : List SearchResult} {x : SearchResult}
    (h : x ∈ firstOccurs l) : x ∈ l := by
  induction l using firstOccurs.induct with
  | case1 => simp [firstOccurs] at h
  | case2 r rs ih =>
    rw [firstOccurs, List.mem_cons] at h
    rcases h with h | h
    · exact h ▸ List.mem_cons_self _ _
    · exact List.mem_cons_of_mem _ (List.mem_of_mem_filter (ih h))

theorem firstOccurs_url_complete {l : List SearchResult} {x : SearchResult}
    (h : x ∈ l) : ∃ y ∈ firstOccurs l, y.url = x.url := by
  induction l using firstOccurs.induct with
  | case1 => cases h
  | case2 r rs ih =>
    rw [List.mem_cons] at h
    rcases h with h | h
    · exact ⟨r, by rw [firstOccurs]; exact List.mem_cons_self _ _, by rw [h]⟩
    · by_cases hu : x.url = r.url
      · exact ⟨r, by rw [firstOccurs]; exact List.mem_cons_self _ _, hu.symm⟩
      · rcases ih (List.mem_filter.2 ⟨h, by simpa using hu⟩) with ⟨y, hy, hyu⟩
        exact ⟨y, by rw [firstOccurs]; exact List.mem_cons_of_mem _ hy, hyu⟩

theorem firstOccurs_urls_nodup (l : List SearchResult) :
    ((firstOccurs l).map fun r => r.url).Nodup := by
  induction l using firstOccurs.induct with
  | case1 => simp [firstOccurs]
  | case2 r rs ih =>
    rw [firstOccurs, List.map_cons, List.nodup_cons]
    refine ⟨fun hmem => ?_, ih⟩
    rcases List.mem_map.1 hmem with ⟨y, hy, hyu⟩
    have := List.of_mem_filter (firstOccurs_subset hy)
    rw [hyu] at this
    simp at this

/-! ### Lemmas: event observers -/

theorem mentionsStage_statusMsg (m st st2 : String) :
    mentionsStage (Event.statusMsg m st) st2 = false := rfl

theorem mentionsStage_sourceFound (s : Source) (st : String) :
    mentionsStage (Event.sourceFound s) st = false := rfl

theorem mentionsStage_errorMsg (m : String) (stg : Option String) (st : String) :
    mentionsStage (Event.errorMsg m stg) st = false := rfl

theorem hasStageStatus_eq_any (evs : List Event) (st status : String) :
    hasStageStatus evs st status = evs.any fun e => isStageStatus e st status := by
  rw [hasStageStatus]
  refine congrArg _ (funext fun e => ?_)
  cases e <;> rfl

theorem hasStageEvent_nil (st : String) : hasStageEvent [] st = false := rfl

theorem hasStageEvent_cons (e : Event) (l : List Event) (st : String) :
    hasStageEvent (e :: l) st = (mentionsStage e st || hasStageEvent l st) := by
  simp [hasStageEvent]

theorem hasStageEvent_append (a b : List Event) (st : String) :
    hasStageEvent (a ++ b) st = (hasStageEvent a st || hasStageEvent b st) := by
  simp [hasStageEvent, List.any_append]

theorem hasStageStatus_nil (st status : String) : hasStageStatus [] st status = false := rfl

theorem hasStageStatus_cons (e : Event) (l : List Event) (st status : String) :
    hasStageStatus (e :: l) st status
      = (isStageStatus e st status || hasStageStatus l st status) := by
  rw [hasStageStatus_eq_any, hasStageStatus_eq_any, List.any_cons]

theorem hasStageStatus_append (a b : List Event) (st status : String) :
    hasStageStatus (a ++ b) st status
      = (hasStageStatus a st status || hasStageStatus b st status) := by
  rw [hasStageStatus_eq_any, hasStageStatus_eq_any, hasStageStatus_eq_any, List.any_append]

theorem hasStageEvent_map_sourceFound (l : List SearchResult) (st : String) :
    hasStageEvent (l.map fun r => Event.sourceFound (mkSource r)) st = false := by
  induction l with
  | nil => rfl
  | cons r rs ih => rw [List.map_cons, hasStageEvent_cons, ih, mentionsStage_sourceFound]; rfl

theorem hasStageStatus_map_sourceFound (l : List SearchResult) (st status : String) :
    hasStageStatus (l.map fun r => Event.sourceFound (mkSource r)) st status = false := by
  induction l with
  | nil => rfl
  | cons r rs ih => rw [List.map_cons, hasStageStatus_cons, ih]; rfl

theorem emittedSources_nil : emittedSources [] = [] := rfl

theorem emittedSources_cons (e : Event) (l : List Event) :
    emittedSources (e :: l)
      = (match e with | Event.sourceFound s => [s] | _ => []) ++ emittedSources l := by
  cases e <;> rfl

theorem emittedSources_append (a b : List Event) :
    emittedSources (a ++ b) = emittedSources a ++ emittedSources b := by
  simp [emittedSources, List.filterMap_append]

theorem emittedSources_map_sourceFound (l : List SearchResult) :
    emittedSources (l.map fun r => Event.sourceFound (mkSource r)) = l.map mkSource := by
  induction l with
  | nil => rfl
  | cons r rs ih => rw [List.map_cons, emittedSources_cons, ih]; rfl

/-! ### Lemmas: the search loop -/

theorem searchLoop_srcs (search : Nat → SearchOutcome) (pl : SearchPlan) (ts : List String) :
    ∀ (pending : List (Nat × String)) (seen : List String),
      (searchLoop search pl ts pending seen).srcs
        = (newResults seen (okResults search (pending.map Prod.fst))).map mkSource := by
  intro pending
  induction pending with
  | nil => intro seen; simp [searchLoop, okResults, newResults]
  | cons p rest ih =>
    intro seen
    obtain ⟨i, q⟩ := p
    rw [searchLoop]
    simp only [List.map_cons, okResults]
    rw [newResults_append, List.map_append, ih]

theorem searchLoop_calls (search : Nat → SearchOutcome) (pl : SearchPlan) (ts : List String) :
    ∀ (pending : List (Nat × String)) (seen : List String),
      (searchLoop search pl ts pending seen).calls
        = pending.map fun p => mkSearchCall pl ts p.1 p.2 := by
  intro pending
  induction pending with
  | nil => intro seen; rfl
  | cons p rest ih =>
    intro seen
    obtain ⟨i, q⟩ := p
    rw [searchLoop, List.map_cons]
    exact congrArg _ (ih _)

theorem searchLoop_emitted (search : Nat → SearchOutcome) (pl : SearchPlan) (ts : List String) :
    ∀ (pending : List (Nat × String)) (seen : List String),
      emittedSources (searchLoop search pl ts pending seen).events
        = (searchLoop search pl ts pending seen).srcs := by
  intro pending
  induction pending with
  | nil => intro seen; rfl
  | cons p rest ih =>
    intro seen
    obtain ⟨i, q⟩ := p
    rw [searchLoop]
    dsimp only
    rw [emittedSources_append, emittedSources_cons, emittedSources_map_sourceFound, ih]
    rfl

theorem searchLoop_no_stage_events (search : Nat → SearchOutcome) (pl : SearchPlan)
    (ts : List String) :
    ∀ (pending : List (Nat × String)) (seen : List String) (st : String),
      hasStageEvent (searchLoop search pl ts pending seen).events st = false := by
  intro pending
  induction pending with
  | nil => intro seen st; rfl
  | cons p rest ih =>
    intro seen st
    obtain ⟨i, q⟩ := p
    rw [searchLoop]
    dsimp only
    rw [hasStageEvent_append, hasStageEvent_cons, hasStageEvent_map_sourceFound, ih,
      mentionsStage_statusMsg]
    rfl

theorem searchLoop_no_stage_status (search : Nat → SearchOutcome) (pl : SearchPlan)
    (ts : List String) :
    ∀ (pending : List (Nat × String)) (seen : List String) (st status : String),
      hasStageStatus (searchLoop search pl ts pending seen).events st status = false := by
  intro pending
  induction pending with
  | nil => intro seen st status; rfl
  | cons p rest ih =>
    intro seen st status
    obtain ⟨i, q⟩ := p
    rw [searchLoop]
    dsimp only
    rw [hasStageStatus_append, hasStageStatus_cons, hasStageStatus_map_sourceFound, ih]
    rfl

/-! ### Lemmas: the stage body -/

theorem loop_srcs_eq_discovered (search : Nat → SearchOutcome) (pl : SearchPlan)
    (ts : List String) :
    (searchLoop search pl ts pl.queries.enum []).srcs
      = discoveredSources search pl.queries.length := by
  rw [searchLoop_srcs, List.enum_map_fst, discoveredSources, successResults,
    newResults_nil_seen]

theorem searchStageBody_emitted (search : Nat → SearchOutcome) (contents : ContentsOutcome)
    (pl : SearchPlan) (ts : List String) :
    emittedSources (searchStageBody search contents pl ts).events
      = discoveredSources search pl.queries.length := by
  unfold searchStageBody
  dsimp only
  rw [emittedSources_append, emittedSources_cons, searchLoop_emitted, loop_srcs_eq_discovered]
  simp [emittedSources]

theorem runSearchStage_eq_body (search : Nat → SearchOutcome) (contents : ContentsOutcome)
    (pl : SearchPlan) (ts : List String) (h : pl.searchTypes = some ts) :
    runSearchStage search contents pl = searchStageBody search contents pl ts := by
  rw [runSearchStage.eq_def, h]

theorem searchStageBody_calls (search : Nat → SearchOutcome) (contents : ContentsOutcome)
    (pl : SearchPlan) (ts : List String) :
    (searchStageBody search contents pl ts).calls
      = pl.queries.enum.map fun p => mkSearchCall pl ts p.1 p.2 := by
  unfold searchStageBody
  dsimp only
  exact searchLoop_calls search pl ts _ _

theorem searchStageBody_value_isSome (search : Nat → SearchOutcome)
    (contents : ContentsOutcome) (pl : SearchPlan) (ts : List String) :
    (searchStageBody search contents pl ts).value.isSome = true := rfl

theorem searchStageBody_completed (search : Nat → SearchOutcome)
    (contents : ContentsOutcome) (pl : SearchPlan) (ts : List String) :
    hasStageStatus (searchStageBody search contents pl ts).events "searching" "completed"
      = true := by
  unfold searchStageBody
  dsimp only
  rw [hasStageStatus_append, hasStageStatus_cons, searchLoop_no_stage_status]
  simp [hasStageStatus_cons, hasStageStatus_nil, isStageStatus]

theorem searchStageBody_no_error_status (search : Nat → SearchOutcome)
    (contents : ContentsOutcome) (pl : SearchPlan) (ts : List String) :
    hasStageStatus (searchStageBody search contents pl ts).events "searching" "error"
      = false := by
  unfold searchStageBody
  dsimp only
  rw [hasStageStatus_append, hasStageStatus_cons, searchLoop_no_stage_status]
  simp [hasStageStatus_cons, hasStageStatus_nil, isStageStatus]

theorem searchStageBody_stage_status_other (search : Nat → SearchOutcome)
    (contents : ContentsOutcome) (pl : SearchPlan) (ts : List String) (st status : String)
    (h : st ≠ "searching") :
    hasStageStatus (searchStageBody search contents pl ts).events st status = false := by
  have hb : ("searching" == st) = false := beq_eq_false_iff_ne.2 (Ne.symm h)
  unfold searchStageBody
  dsimp only
  rw [hasStageStatus_append, hasStageStatus_cons, searchLoop_no_stage_status]
  simp [hasStageStatus_cons, hasStageStatus_nil, isStageStatus, hb]

theorem searchStageBody_no_other_stage (search : Nat → SearchOutcome)
    (contents : ContentsOutcome) (pl : SearchPlan) (ts : List String) (st : String)
    (h : st ≠ "searching") :
    hasStageEvent (searchStageBody search contents pl ts).events st = false := by
  have hb : ("searching" == st) = false := beq_eq_false_iff_ne.2 (Ne.symm h)
  unfold searchStageBody
  dsimp only
  rw [hasStageEvent_append, hasStageEvent_cons, searchLoop_no_stage_events]
  simp [hasStageEvent_cons, hasStageEvent_nil, mentionsStage, hb]

/-! ### Lemmas: planning and writing stage traces -/

theorem planning_no_other_stage (resp : Except String String) (st : String)
    (h : st ≠ "planning") : hasStageEvent (runPlanningStage resp).1 st = false := by
  have hb : ("planning" == st) = false := beq_eq_false_iff_ne.2 (Ne.symm h)
  cases resp with
  | error e =>
    simp [runPlanningStage, planningIntro, planningFailureEvents, hasStageEvent,
      mentionsStage, hb]
  | ok t =>
    cases hp : parsePlanFromText t with
    | error e =>
      simp [runPlanningStage, hp, planningIntro, planningFailureEvents, hasStageEvent,
        mentionsStage, hb]
    | ok plan =>
      simp [runPlanningStage, hp, planningIntro, hasStageEvent, mentionsStage, hb]

theorem planning_stage_status_other (resp : Except String String) (st status : String)
    (h : st ≠ "planning") : hasStageStatus (runPlanningStage resp).1 st status = false := by
  have hb : ("planning" == st) = false := beq_eq_false_iff_ne.2 (Ne.symm h)
  cases resp with
  | error e =>
    simp [runPlanningStage, planningIntro, planningFailureEvents, hasStageStatus, hb]
  | ok t =>
    cases hp : parsePlanFromText t with
    | error e =>
      simp [runPlanningStage, hp, planningIntro, planningFailureEvents, hasStageStatus, hb]
    | ok plan =>
      simp [runPlanningStage, hp, planningIntro, hasStageStatus, hb]

theorem planning_success_no_error (resp : Except String String) (pe : List Event)
    (plan : SearchPlan) (h : runPlanningStage resp = (pe, some plan)) :
    hasStageStatus pe "planning" "error" = false := by
  cases resp with
  | error e => simp [runPlanningStage] at h
  | ok t =>
    cases hp : parsePlanFromText t with
    | error e =>
      rw [runPlanningStage, hp] at h
      simp at h
    | ok p =>
      rw [runPlanningStage, hp] at h
      have hpe : pe = planningIntro ++
          [Event.statusMsg ("Generated " ++ toString p.queries.length ++ " search queries") "planning",
           Event.stageChange "planning" "completed"
             (some ("Search strategy ready with " ++ toString p.queries.length ++ " queries"))] :=
        ((Prod.ext_iff.1 h).1).symm
      subst hpe
      simp [planningIntro, hasStageStatus]

theorem writing_no_other_stage (resp : Except String String) (st : String)
    (h : st ≠ "writing") : hasStageEvent (runWritingStage resp).1 st = false := by
  have hb : ("writing" == st) = false := beq_eq_false_iff_ne.2 (Ne.symm h)
  cases resp with
  | error e =>
    simp [runWritingStage, writingIntro, hasStageEvent, mentionsStage, hb]
  | ok t =>
    simp [runWritingStage, writingIntro, hasStageEvent, mentionsStage, hb]

theorem writing_stage_status_other (resp : Except String String) (st status : String)
    (h : st ≠ "writing") : hasStageStatus (runWritingStage resp).1 st status = false := by
  have hb : ("writing" == st) = false := beq_eq_false_iff_ne.2 (Ne.symm h)
  cases resp with
  | error e =>
    simp [runWritingStage, writingIntro, hasStageStatus, hb]
  | ok t =>
    simp [runWritingStage, writingIntro, hasStageStatus, hb]

/-! ### Lemmas: snippet enrichment -/

theorem eraseSnippet_setSnippet (d : ContentDoc) (s : Source) :
    eraseSnippet (setSnippet d s) = eraseSnippet s := rfl

theorem setSnippet_url (d : ContentDoc) (s : Source) : (setSnippet d s).url = s.url := rfl

theorem updateFirst_map_eraseSnippet (d : ContentDoc) :
    ∀ srcs : List Source, (updateFirst srcs d).map eraseSnippet = srcs.map eraseSnippet := by
  intro srcs
  induction srcs with
  | nil => rfl
  | cons s rest ih =>
    rw [updateFirst]
    by_cases h : s.url = d.url
    · rw [if_pos h, List.map_cons, List.map_cons, eraseSnippet_setSnippet]
    · rw [if_neg h, List.map_cons, List.map_cons, ih]

theorem updateFirst_map_url (d : ContentDoc) :
    ∀ srcs : List Source,
      (updateFirst srcs d).map (fun s => s.url) = srcs.map fun s => s.url := by
  intro srcs
  induction srcs with
  | nil => rfl
  | cons s rest ih =>
    rw [updateFirst]
    by_cases h : s.url = d.url
    · rw [if_pos h, List.map_cons, List.map_cons, setSnippet_url]
    · rw [if_neg h, List.map_cons, List.map_cons, ih]

theorem enrich_map_eraseSnippet (docs : List ContentDoc) :
    ∀ srcs : List Source,
      (enrichSources srcs docs).map eraseSnippet = srcs.map eraseSnippet := by
  induction docs with
  | nil => intro srcs; rfl
  | cons d ds ih =>
    intro srcs
    rw [enrichSources, List.foldl_cons, ← enrichSources, ih, updateFirst_map_eraseSnippet]

theorem snippetAfter_nil (s : Source) : snippetAfter [] s = s := rfl

theorem snippetAfter_cons_ne (d : ContentDoc) (ds : List ContentDoc) (s : Source)
    (h : ¬ s.url = d.url) : snippetAfter (d :: ds) s = snippetAfter ds s := by
  rw [snippetAfter, snippetAfter, List.filter_cons]
  have hb : (d.url == s.url) = false := beq_eq_false_iff_ne.2 fun he => h he.symm
  rw [hb]
  simp only [Bool.false_eq_true, if_false]

theorem snippetAfter_cons_eq (d : ContentDoc) (ds : List ContentDoc) (s : Source)
    (h : s.url = d.url) : snippetAfter (d :: ds) s = snippetAfter ds (setSnippet d s) := by
  rw [snippetAfter, snippetAfter, List.filter_cons]
  have hb : (d.url == s.url) = true := beq_iff_eq.2 h.symm
  rw [hb]
  simp only [if_true, setSnippet_url]
  cases ht : ds.filter (fun d2 => d2.url == s.url) with
  | nil => rfl
  | cons x t =>
    rw [List.getLast?_cons_cons]
    cases hl : (x :: t).getLast? with
    | none => rw [List.getLast?_eq_none_iff] at hl; cases hl
    | some d2 => rfl

theorem updateFirst_map_snippetAfter (d : ContentDoc) (ds : List ContentDoc) :
    ∀ srcs : List Source, ((srcs.map fun s => s.url).Nodup) →
      (updateFirst srcs d).map (snippetAfter ds) = srcs.map (snippetAfter (d :: ds)) := by
  intro srcs
  induction srcs with
  | nil => intro _; rfl
  | cons s rest ih =>
    intro hnd
    rw [List.map_cons, List.nodup_cons] at hnd
    obtain ⟨hs, hrest⟩ := hnd
    rw [updateFirst]
    by_cases h : s.url = d.url
    · rw [if_pos h, List.map_cons, List.map_cons, snippetAfter_cons_eq _ _ _ h]
      refine congrArg _ ?_
      refine (List.map_congr_left fun x hx => ?_).symm
      have hxne : ¬ x.url = d.url := by
        intro he
        have hxu : x.url ∈ rest.map fun s => s.url := List.mem_map_of_mem _ hx
        rw [he, ← h] at hxu
        exact hs hxu
      exact snippetAfter_cons_ne _ _ _ hxne
    · rw [if_neg h, List.map_cons, List.map_cons, snippetAfter_cons_ne _ _ _ h, ih hrest]

theorem enrich_eq_map_snippetAfter (docs : List ContentDoc) :
    ∀ srcs : List Source, ((srcs.map fun s => s.url).Nodup) →
      enrichSources srcs docs = srcs.map (snippetAfter docs) := by
  induction docs with
  | nil =>
    intro srcs _
    rw [enrichSources, List.foldl_nil]
    have hmap : srcs.map (snippetAfter []) = srcs.map id :=
      List.map_congr_left fun a _ => snippetAfter_nil a
    rw [hmap, List.map_id]
  | cons d ds ih =>
    intro srcs hnd
    rw [enrichSources, List.foldl_cons, ← enrichSources]
    have hnd2 : ((updateFirst srcs d).map fun s => s.url).Nodup := by
      rw [updateFirst_map_url]
      exact hnd
    rw [ih _ hnd2, updateFirst_map_snippetAfter _ _ _ hnd]

theorem discovered_urls_nodup (search : Nat → SearchOutcome) (n : Nat) :
    ((discoveredSources search n).map fun s => s.url).Nodup := by
  rw [discoveredSources, List.map_map]
  exact firstOccurs_urls_nodup _

theorem runSearchStage_eq_body_of_nil (search : Nat → SearchOutcome)
    (contents : ContentsOutcome) (pl : SearchPlan) (hst : pl.searchTypes = none)
    (hq : pl.queries = []) :
    runSearchStage search contents pl = searchStageBody search contents pl [] := by
  rw [runSearchStage.eq_def, hst, hq]

theorem runSearchStage_error_record (search : Nat → SearchOutcome)
    (contents : ContentsOutcome) (pl : SearchPlan) (hst : pl.searchTypes = none)
    (q : String) (qs : List String) (hq : pl.queries = q :: qs) :
    runSearchStage search contents pl =
      { events :=
          [Event.stageChange "searching" "active" (some "Starting web searches"),
           Event.stageChange "searching" "error" (some searchTypesErrorText),
           Event.errorMsg searchTypesErrorText (some "searching")]
        calls := []
        fetchCalls := []
        value := none } := by
  rw [runSearchStage.eq_def, hst, hq]

theorem runSearchStage_no_error_of_some (search : Nat → SearchOutcome)
    (contents : ContentsOutcome) (pl : SearchPlan) (srcs : List Source) (cs : List String)
    (hv : (runSearchStage search contents pl).value = some (srcs, cs)) :
    hasStageStatus (runSearchStage search contents pl).events "searching" "error" = false := by
  rcases hst : pl.searchTypes with _ | ts
  · rcases hq : pl.queries with _ | ⟨q, qs⟩
    · rw [runSearchStage_eq_body_of_nil search contents pl hst hq]
      exact searchStageBody_no_error_status search contents pl []
    · rw [runSearchStage_error_record search contents pl hst q qs hq] at hv
      simp at hv
  · rw [runSearchStage_eq_body search contents pl ts hst]
    exact searchStageBody_no_error_status search contents pl ts

theorem runSearchStage_no_other_stage (search : Nat → SearchOutcome)
    (contents : ContentsOutcome) (pl : SearchPlan) (st : String) (h : st ≠ "searching") :
    hasStageEvent (runSearchStage search contents pl).events st = false := by
  have hb : ("searching" == st) = false := beq_eq_false_iff_ne.2 (Ne.symm h)
  rcases hst : pl.searchTypes with _ | ts
  · rcases hq : pl.queries with _ | ⟨q, qs⟩
    · rw [runSearchStage_eq_body_of_nil search contents pl hst hq]
      exact searchStageBody_no_other_stage search contents pl [] st h
    · rw [runSearchStage_error_record search contents pl hst q qs hq]
      simp [hasStageEvent, mentionsStage, hb]
  · rw [runSearchStage_eq_body search contents pl ts hst]
    exact searchStageBody_no_other_stage search contents pl ts st h

theorem runSearchStage_stage_status_other (search : Nat → SearchOutcome)
    (contents : ContentsOutcome) (pl : SearchPlan) (st status : String)
    (h : st ≠ "searching") :
    hasStageStatus (runSearchStage search contents pl).events st status = false := by
  have hb : ("searching" == st) = false := beq_eq_false_iff_ne.2 (Ne.symm h)
  rcases hst : pl.searchTypes with _ | ts
  · rcases hq : pl.queries with _ | ⟨q, qs⟩
    · rw [runSearchStage_eq_body_of_nil search contents pl hst hq]
      exact searchStageBody_stage_status_other search contents pl [] st status h
    · rw [runSearchStage_error_record search contents pl hst q qs hq]
      simp [hasStageStatus, hb]
  · rw [runSearchStage_eq_body search contents pl ts hst]
    exact searchStageBody_stage_status_other search contents pl ts st status h

theorem take_map_url_ne_nil {l : List Source} (h : l ≠ []) :
    (l.take 8).map (fun s => s.url) ≠ [] := by
  cases l with
  | nil => exact absurd rfl h
  | cons a t => simp

theorem searchStageBody_fetch (search : Nat → SearchOutcome) (docs : List ContentDoc)
    (pl : SearchPlan) (ts : List String)
    (h : discoveredSources search pl.queries.length ≠ []) :
    (searchStageBody search (ContentsOutcome.ok docs) pl ts).fetchCalls
        = [(((discoveredSources search pl.queries.length).take 8).map fun s => s.url, 8000)]
    ∧ (searchStageBody search (ContentsOutcome.ok docs) pl ts).value
        = some ((discoveredSources search pl.queries.length).map (snippetAfter docs),
                docs.map formatContent) := by
  unfold searchStageBody
  dsimp only
  rw [loop_srcs_eq_discovered, if_neg (take_map_url_ne_nil h)]
  dsimp only
  refine ⟨rfl, ?_⟩
  rw [enrich_eq_map_snippetAfter _ _ (discovered_urls_nodup _ _)]

theorem mem_okResults {search : Nat → SearchOutcome} {rs : List SearchResult}
    {r : SearchResult} {i : Nat} :
    ∀ {is : List Nat}, i ∈ is → search i = SearchOutcome.ok rs → r ∈ rs →
      r ∈ okResults search is := by
  intro is
  induction is with
  | nil => intro h _ _; cases h
  | cons j js ih =>
    intro hmem hs hr
    rw [okResults, List.mem_append]
    rcases List.mem_cons.1 hmem with h | h
    · subst h; rw [hs]; exact Or.inl hr
    · exact Or.inr (ih h hs hr)

theorem okResults_sound {search : Nat → SearchOutcome} {r : SearchResult} :
    ∀ {is : List Nat}, r ∈ okResults search is →
      ∃ i ∈ is, ∃ rs, search i = SearchOutcome.ok rs ∧ r ∈ rs := by
  intro is
  induction is with
  | nil => intro h; cases h
  | cons j js ih =>
    intro h
    rw [okResults, List.mem_append] at h
    rcases h with h | h
    · refine ⟨j, List.mem_cons_self _ _, ?_⟩
      cases hs : search j with
      | ok rs =>
        rw [hs] at h
        exact ⟨rs, rfl, h⟩
      | fail e =>
        rw [hs] at h
        simp [okOf] at h
    · rcases ih h with ⟨i, hi, rs, hs, hr⟩
      exact ⟨i, List.mem_cons_of_mem _ hi, rs, hs, hr⟩

theorem snippetAfter_url (docs : List ContentDoc) (s : Source) :
    (snippetAfter docs s).url = s.url := by
  rw [snippetAfter]
  cases (docs.filter fun d => d.url == s.url).getLast? <;> rfl

theorem discovered_erase (search : Nat → SearchOutcome) (n : Nat) :
    (discoveredSources search n).map eraseSnippet = discoveredSources search n := by
  rw [discoveredSources, List.map_map]
  exact List.map_congr_left fun r _ => rfl

theorem searchStageBody_value_erase (search : Nat → SearchOutcome)
    (contents : ContentsOutcome) (pl : SearchPlan) (ts : List String)
    (srcs : List Source) (cs : List String)
    (hv : (searchStageBody search contents pl ts).value = some (srcs, cs)) :
    srcs.map eraseSnippet = discoveredSources search pl.queries.length := by
  unfold searchStageBody at hv
  dsimp only at hv
  rw [loop_srcs_eq_discovered] at hv
  rw [← discovered_erase search pl.queries.length]
  split at hv
  · rw [Option.some.injEq, Prod.mk.injEq] at hv
    rw [← hv.1]
  · split at hv
    · rw [Option.some.injEq, Prod.mk.injEq] at hv
      rw [← hv.1, enrich_map_eraseSnippet]
    · rw [Option.some.injEq, Prod.mk.injEq] at hv
      rw [← hv.1]

theorem parsePlanFromText_eq (text : String) :
    parsePlanFromText text
      = match extractJsonRegion text with
        | none => Except.error "Could not parse search plan from response"
        | some region => modelParsePlan region := by
  unfold parsePlanFromText modelParsePlan
  cases extractJsonRegion text <;> rfl

theorem runPlanningStage_eq_with (resp : Except String String) :
    runPlanningStage resp = runPlanningStageWith modelParsePlan resp := by
  cases resp with
  | error e => rfl
  | ok text => simp only [runPlanningStage, runPlanningStageWith, parsePlanFromText_eq]

theorem planning_value_eq (text : String) :
    (runPlanningStage (Except.ok text)).2 = (extractJsonRegion text).bind parsePlanJson := by
  simp only [runPlanningStage]
  unfold parsePlanFromText parsePlanJson
  cases he : extractJsonRegion text with
  | none => simp
  | some region =>
    dsimp only
    simp only [Option.some_bind]
    cases hj : jsonParse region with
    | none => simp
    | some j =>
      dsimp only
      simp only [Option.some_bind]
      cases hd : decodePlan j with
      | none => simp
      | some p => simp

theorem planning_error_iff (text : String) :
    hasStageStatus (runPlanningStage (Except.ok text)).1 "planning" "error"
      = ((extractJsonRegion text).bind parsePlanJson).isNone := by
  simp only [runPlanningStage]
  unfold parsePlanFromText parsePlanJson
  cases he : extractJsonRegion text with
  | none => simp [planningIntro, planningFailureEvents, hasStageStatus]
  | some region =>
    dsimp only
    simp only [Option.some_bind]
    cases hj : jsonParse region with
    | none => simp [planningIntro, planningFailureEvents, hasStageStatus]
    | some j =>
      dsimp only
      simp only [Option.some_bind]
      cases hd : decodePlan j with
      | none => simp [planningIntro, planningFailureEvents, hasStageStatus]
      | some p => simp [planningIntro, hasStageStatus]

theorem errorChunk_ne_doneChunk (e : String) : errorChunk e ≠ doneChunk := by
  intro heq
  have h6 : (errorChunk e).data[6]? = doneChunk.data[6]? := by rw [heq]
  rw [errorChunk, String.data_append, String.data_append, List.append_assoc,
    List.getElem?_append_left (by decide)] at h6
  exact absurd h6 (by decide)

/-! ### Claims -/

/-- Claim C1: in every `runResearchPipeline` run, an `error` stage status
is terminal for the pipeline — once `stage_change(planning, error)` is
emitted, no searching or writing `stage_change` event ever appears and
the orchestrator returns the planning-failure result; once
`stage_change(searching, error)` is emitted, no writing `stage_change`
event appears and the orchestrator returns the search-failure result. -/
theorem error_status_halts_pipeline (env : Env) :
    errorHaltsPipeline (runResearchPipeline env) = true := by
  rcases hp : runPlanningStage env.planner with ⟨pe, po⟩
  rw [runResearchPipeline.eq_def, hp]
  cases po with
  | none =>
    dsimp only
    have h1 : hasStageEvent pe "searching" = false := by
      have hh := planning_no_other_stage env.planner "searching" (by decide)
      rw [hp] at hh; exact hh
    have h2 : hasStageEvent pe "writing" = false := by
      have hh := planning_no_other_stage env.planner "writing" (by decide)
      rw [hp] at hh; exact hh
    have h3 : hasStageStatus pe "searching" "error" = false := by
      have hh := planning_stage_status_other env.planner "searching" "error" (by decide)
      rw [hp] at hh; exact hh
    simp [errorHaltsPipeline, h1, h2, h3]
  | some plan =>
    dsimp only
    have hPlanErr : hasStageStatus pe "planning" "error" = false :=
      planning_success_no_error env.planner pe plan hp
    have hPeSearch : hasStageStatus pe "searching" "error" = false := by
      have hh := planning_stage_status_other env.planner "searching" "error" (by decide)
      rw [hp] at hh; exact hh
    have hPeWriting : hasStageEvent pe "writing" = false := by
      have hh := planning_no_other_stage env.planner "writing" (by decide)
      rw [hp] at hh; exact hh
    rcases hv : (runSearchStage env.search env.contents plan).value with _ | ⟨srcs, cs⟩
    · dsimp only
      have hSoPlan : hasStageStatus (runSearchStage env.search env.contents plan).events
          "planning" "error" = false :=
        runSearchStage_stage_status_other env.search env.contents plan "planning" "error"
          (by decide)
      have hSoWriting : hasStageEvent (runSearchStage env.search env.contents plan).events
          "writing" = false :=
        runSearchStage_no_other_stage env.search env.contents plan "writing" (by decide)
      simp [errorHaltsPipeline, hasStageStatus_append, hasStageEvent_append,
        hPlanErr, hPeWriting, hSoPlan, hSoWriting]
    · dsimp only
      have hSoPlan : hasStageStatus (runSearchStage env.search env.contents plan).events
          "planning" "error" = false :=
        runSearchStage_stage_status_other env.search env.contents plan "planning" "error"
          (by decide)
      have hSoErr : hasStageStatus (runSearchStage env.search env.contents plan).events
          "searching" "error" = false :=
        runSearchStage_no_error_of_some env.search env.contents plan srcs cs hv
      rcases hw : runWritingStage env.writer with ⟨we, ro⟩
      have hWePlan : hasStageStatus we "planning" "error" = false := by
        have hh := writing_stage_status_other env.writer "planning" "error" (by decide)
        rw [hw] at hh; exact hh
      have hWeSearch : hasStageStatus we "searching" "error" = false := by
        have hh := writing_stage_status_other env.writer "searching" "error" (by decide)
        rw [hw] at hh; exact hh
      cases ro with
      | none =>
        dsimp only
        simp [errorHaltsPipeline, hasStageStatus_append, hPlanErr, hPeSearch,
          hSoPlan, hSoErr, hWePlan, hWeSearch]
      | some rep =>
        dsimp only
        simp [errorHaltsPipeline, hasStageStatus_append, hasStageStatus_cons,
          hasStageStatus_nil, isStageStatus, hPlanErr, hPeSearch,
          hSoPlan, hSoErr, hWePlan, hWeSearch]

/-- Claim C2: within one session the searching stage never records the
same URL twice — the `onSource` events are exactly the first occurrences
of the successful results, as `Source` records, in discovery order; their
URLs are pairwise distinct; and the source list the stage returns matches
the emitted records one-for-one in order (only snippets added later may
differ), so a URL seen again adds nothing. -/
theorem search_sources_dedup_first_order (search : Nat → SearchOutcome)
    (contents : ContentsOutcome) (pl : SearchPlan) (ts : List String)
    (h : pl.searchTypes = some ts) :
    emittedSources (runSearchStage search contents pl).events
        = discoveredSources search pl.queries.length
    ∧ ((emittedSources (runSearchStage search contents pl).events).map fun s => s.url).Nodup
    ∧ ∀ srcs cs, (runSearchStage search contents pl).value = some (srcs, cs) →
        srcs.map eraseSnippet = discoveredSources search pl.queries.length := by
  rw [runSearchStage_eq_body search contents pl ts h]
  refine ⟨searchStageBody_emitted search contents pl ts, ?_, ?_⟩
  · rw [searchStageBody_emitted search contents pl ts]
    exact discovered_urls_nodup search pl.queries.length
  · intro srcs cs hv
    exact searchStageBody_value_erase search contents pl ts srcs cs hv

/-- Witness for C2: two of three queries succeed and share the URL `u2`;
the emitted sources equal the deduplicated discovery list, and evaluate
to exactly one record per unique URL, in first-discovery order. -/
theorem search_sources_dedup_first_order_witness :
    emittedSources (runSearchStage
        (fun i => if i = 0 then
            SearchOutcome.ok [⟨"1", "A", "u1", none, none, none⟩, ⟨"2", "B", "u2", none, none, none⟩]
          else if i = 1 then
            SearchOutcome.ok [⟨"3", "B2", "u2", none, none, none⟩, ⟨"4", "C", "u3", none, none, none⟩]
          else SearchOutcome.fail "down")
        (ContentsOutcome.fail "nofetch")
        ⟨["a", "b", "c"], some ["neural", "keyword"], none, none, none⟩).events
      = discoveredSources
          (fun i => if i = 0 then
              SearchOutcome.ok [⟨"1", "A", "u1", none, none, none⟩, ⟨"2", "B", "u2", none, none, none⟩]
            else if i = 1 then
              SearchOutcome.ok [⟨"3", "B2", "u2", none, none, none⟩, ⟨"4", "C", "u3", none, none, none⟩]
            else SearchOutcome.fail "down") 3
    ∧ (emittedSources (runSearchStage
        (fun i => if i = 0 then
            SearchOutcome.ok [⟨"1", "A", "u1", none, none, none⟩, ⟨"2", "B", "u2", none, none, none⟩]
          else if i = 1 then
            SearchOutcome.ok [⟨"3", "B2", "u2", none, none, none⟩, ⟨"4", "C", "u3", none, none, none⟩]
          else SearchOutcome.fail "down")
        (ContentsOutcome.fail "nofetch")
        ⟨["a", "b", "c"], some ["neural", "keyword"], none, none, none⟩).events).map
          (fun s => s.url) = ["u1", "u2", "u3"] :=
  ⟨(search_sources_dedup_first_order _ _ _ ["neural", "keyword"] rfl).1, by decide⟩

/-- Claim C5: individual `searchWeb` failures are non-fatal — for every
plan with a `searchTypes` array the searching stage returns a value and
reaches `stage_change(searching, completed)` with no error status, every
result of a successful call contributes its URL to the deduplicated
source list (no partial sources lost), and every recorded source comes
from a successful call. -/
theorem search_failures_nonfatal (search : Nat → SearchOutcome)
    (contents : ContentsOutcome) (pl : SearchPlan) (ts : List String)
    (h : pl.searchTypes = some ts) :
    (runSearchStage search contents pl).value.isSome = true
    ∧ hasStageStatus (runSearchStage search contents pl).events "searching" "completed" = true
    ∧ hasStageStatus (runSearchStage search contents pl).events "searching" "error" = false
    ∧ (∀ i rs r, i < pl.queries.length → search i = SearchOutcome.ok rs → r ∈ rs →
        r.url ∈ (discoveredSources search pl.queries.length).map fun s => s.url)
    ∧ (∀ s, s ∈ discoveredSources search pl.queries.length →
        ∃ r, r ∈ successResults search pl.queries.length ∧ s = mkSource r) := by
  rw [runSearchStage_eq_body search contents pl ts h]
  refine ⟨searchStageBody_value_isSome search contents pl ts,
    searchStageBody_completed search contents pl ts,
    searchStageBody_no_error_status search contents pl ts, ?_, ?_⟩
  · intro i rs r hi hs hr
    have hmem : r ∈ successResults search pl.queries.length :=
      mem_okResults (List.mem_range.2 hi) hs hr
    rcases firstOccurs_url_complete hmem with ⟨y, hy, hyu⟩
    rw [discoveredSources, List.map_map]
    exact List.mem_map.2 ⟨y, hy, hyu⟩
  · intro s hs
    rw [discoveredSources] at hs
    rcases List.mem_map.1 hs with ⟨y, hy, hys⟩
    exact ⟨y, firstOccurs_subset hy, hys.symm⟩

/-- Witness for C5: the second of three searches fails; the stage still
returns a value and reports `completed`, and the session records the
sources of the two successful calls. -/
theorem search_failures_nonfatal_witness :
    (runSearchStage
        (fun i => if i = 0 then SearchOutcome.ok [⟨"1", "A", "u1", none, none, none⟩]
          else if i = 1 then SearchOutcome.fail "boom"
          else SearchOutcome.ok [⟨"2", "B", "u2", none, none, none⟩])
        (ContentsOutcome.fail "nofetch")
        ⟨["a", "b", "c"], some ["neural", "neural", "neural"], none, none, none⟩).value.isSome
      = true
    ∧ hasStageStatus (runSearchStage
        (fun i => if i = 0 then SearchOutcome.ok [⟨"1", "A", "u1", none, none, none⟩]
          else if i = 1 then SearchOutcome.fail "boom"
          else SearchOutcome.ok [⟨"2", "B", "u2", none, none, none⟩])
        (ContentsOutcome.fail "nofetch")
        ⟨["a", "b", "c"], some ["neural", "neural", "neural"], none, none, none⟩).events
        "searching" "completed" = true :=
  ⟨(search_failures_nonfatal _ _ _ ["neural", "neural", "neural"] rfl).1,
   (search_failures_nonfatal _ _ _ ["neural", "neural", "neural"] rfl).2.1⟩

/-- Claim C7: after the search loop, `getContents` is invoked exactly once,
for the URLs of the first eight sources in discovery order with the
8000-character cap; each fetched document updates in place only the
snippet of the (unique) source with its URL, and the source list keeps
its length, order, URLs and all other fields, with no duplicate created. -/
theorem fetch_once_and_snippet_in_place (search : Nat → SearchOutcome)
    (docs : List ContentDoc) (pl : SearchPlan) (ts : List String)
    (h : pl.searchTypes = some ts)
    (hne : discoveredSources search pl.queries.length ≠ []) :
    (runSearchStage search (ContentsOutcome.ok docs) pl).fetchCalls
        = [(((discoveredSources search pl.queries.length).take 8).map fun s => s.url, 8000)]
    ∧ (runSearchStage search (ContentsOutcome.ok docs) pl).value
        = some ((discoveredSources search pl.queries.length).map (snippetAfter docs),
                docs.map formatContent)
    ∧ ((discoveredSources search pl.queries.length).map (snippetAfter docs)).map
          (fun s => s.url)
        = (discoveredSources search pl.queries.length).map (fun s => s.url)
    ∧ ∀ s ∈ discoveredSources search pl.queries.length,
        (∀ d ∈ docs, d.url ≠ s.url) → snippetAfter docs s = s := by
  rw [runSearchStage_eq_body search (ContentsOutcome.ok docs) pl ts h]
  obtain ⟨h1, h2⟩ := searchStageBody_fetch search docs pl ts hne
  refine ⟨h1, h2, ?_, ?_⟩
  · rw [List.map_map]
    exact List.map_congr_left fun s _ => snippetAfter_url docs s
  · intro s _ hnomatch
    rw [snippetAfter]
    have hnil : docs.filter (fun d => d.url == s.url) = [] := by
      rw [List.filter_eq_nil_iff]
      intro d hd
      simp [hnomatch d hd]
    rw [hnil]
    rfl

/-- Witness for C7: two discovered sources, one fetched document matching
the second URL; `getContents` is called once with both URLs and the 8000
cap, and only the matching source's snippet changes. -/
theorem fetch_once_and_snippet_in_place_witness :
    (runSearchStage
        (fun i => if i = 0 then
            SearchOutcome.ok [⟨"1", "A", "u1", none, none, none⟩, ⟨"2", "B", "u2", none, none, none⟩]
          else SearchOutcome.fail "down")
        (ContentsOutcome.ok [⟨"u2", "B", "full text of B", none, none⟩])
        ⟨["a"], some ["neural"], none, none, none⟩).fetchCalls
      = [(["u1", "u2"], 8000)]
    ∧ (runSearchStage
        (fun i => if i = 0 then
            SearchOutcome.ok [⟨"1", "A", "u1", none, none, none⟩, ⟨"2", "B", "u2", none, none, none⟩]
          else SearchOutcome.fail "down")
        (ContentsOutcome.ok [⟨"u2", "B", "full text of B", none, none⟩])
        ⟨["a"], some ["neural"], none, none, none⟩).value
      = some ([⟨"1", "A", "u1", none, none, none⟩,
               ⟨"2", "B", "u2", none, none, some "full text of B..."⟩],
              ["## B\nURL: u2\n\nfull text of B"]) := by
  have hfetch := fetch_once_and_snippet_in_place
    (fun i => if i = 0 then
        SearchOutcome.ok [⟨"1", "A", "u1", none, none, none⟩, ⟨"2", "B", "u2", none, none, none⟩]
      else SearchOutcome.fail "down")
    [⟨"u2", "B", "full text of B", none, none⟩]
    ⟨["a"], some ["neural"], none, none, none⟩ ["neural"] rfl
    (by rw [discoveredSources, ← newResults_nil_seen]; decide)
  have hdisc : discoveredSources
      (fun i => if i = 0 then
          SearchOutcome.ok [⟨"1", "A", "u1", none, none, none⟩, ⟨"2", "B", "u2", none, none, none⟩]
        else SearchOutcome.fail "down")
      (⟨["a"], some ["neural"], none, none, none⟩ : SearchPlan).queries.length
      = [⟨"1", "A", "u1", none, none, none⟩, ⟨"2", "B", "u2", none, none, none⟩] := by
    rw [discoveredSources, ← newResults_nil_seen]
    decide
  refine ⟨?_, ?_⟩
  · rw [hfetch.1, hdisc]
    decide
  · rw [hfetch.2.1, hdisc]
    decide

/-- Claim C10 (implicit): a missing or falsy `searchTypes` entry for a
query index does not fail the searching stage — the call for that index
is issued with the default type `neural` and the stage proceeds
normally. -/
theorem missing_search_type_defaults_neural (search : Nat → SearchOutcome)
    (contents : ContentsOutcome) (pl : SearchPlan) (ts : List String) (i : Nat)
    (h : pl.searchTypes = some ts) (hi : i < pl.queries.length)
    (hempty : ts.getD i "" = "") :
    (runSearchStage search contents pl).calls[i]?
        = some { query := pl.queries.getD i "", qtype := "neural", numResults := 5,
                 domains := pl.domains,
                 startDate := pl.dateRange.bind DateRange.startDate,
                 endDate := pl.dateRange.bind DateRange.endDate }
    ∧ (runSearchStage search contents pl).value.isSome = true := by
  rw [runSearchStage_eq_body search contents pl ts h]
  refine ⟨?_, searchStageBody_value_isSome search contents pl ts⟩
  rw [searchStageBody_calls, List.getElem?_map, List.getElem?_enum,
    List.getElem?_eq_getElem hi]
  simp only [Option.map_some', Option.some.injEq]
  rw [mkSearchCall, hempty]
  rw [List.getD_eq_getElem?_getD pl.queries i "", List.getElem?_eq_getElem hi]
  simp

/-- Witness for C10: two queries but only one `searchTypes` entry; the
second search call is issued with type `neural` and the stage returns a
value. -/
theorem missing_search_type_defaults_neural_witness :
    (runSearchStage (fun _ => SearchOutcome.fail "down") (ContentsOutcome.fail "nofetch")
        ⟨["a", "b"], some ["keyword"], none, none, none⟩).calls[1]?
        = some { query := "b", qtype := "neural", numResults := 5,
                 domains := none, startDate := none, endDate := none }
    ∧ (runSearchStage (fun _ => SearchOutcome.fail "down") (ContentsOutcome.fail "nofetch")
        ⟨["a", "b"], some ["keyword"], none, none, none⟩).value.isSome = true :=
  missing_search_type_defaults_neural _ _ _ ["keyword"] 1 rfl (by decide) rfl

/-- Counterexample for C4: on the response text
`\x7b"queries":[]\x7d \x7b"x":1\x7d` the first balanced-brace region is
`\x7b"queries":[]\x7d`, which parses as a plan, so under the claim the
stage would succeed — but the stage extracts the greedy region from the
first opening to the last closing brace, which is not valid JSON, and
fails; the two extraction policies disagree on this input. -/
theorem plan_extraction_not_first_balanced_cex :
    (runPlanningStage (Except.ok "\x7b\"queries\":[]\x7d \x7b\"x\":1\x7d")).2 = none
    ∧ (specPlannedResult "\x7b\"queries\":[]\x7d \x7b\"x\":1\x7d").isSome = true
    ∧ extractJsonRegion "\x7b\"queries\":[]\x7d \x7b\"x\":1\x7d"
        ≠ specFirstBalancedRegion "\x7b\"queries\":[]\x7d \x7b\"x\":1\x7d" := by
  refine ⟨?_, ?_, ?_⟩ <;> decide

/-- Claim C4 (amended): the planning stage hands the parse step exactly
the maximal region from the first opening brace to the last closing
brace of the response text (the greedy regex match of orchestrator.ts
line 55), not the first balanced-brace region; for every behavior of the
parse step (the built-in `JSON.parse` plus the plan-field reads), the
stage returns its result, and fails — null with
`stage_change(planning, error)` — precisely when no such region exists or
the parse step fails.  The file's concrete planning stage is the instance
at the modelled parse step. -/
theorem plan_extraction_greedy_region (parse : String → Except String SearchPlan)
    (text : String) :
    ((runPlanningStageWith parse (Except.ok text)).2
        = (extractJsonRegion text).bind fun r => (parse r).toOption)
    ∧ (hasStageStatus (runPlanningStageWith parse (Except.ok text)).1 "planning" "error"
        = ((extractJsonRegion text).bind fun r => (parse r).toOption).isNone)
    ∧ runPlanningStage (Except.ok text)
        = runPlanningStageWith modelParsePlan (Except.ok text) := by
  refine ⟨?_, ?_, runPlanningStage_eq_with (Except.ok text)⟩
  · unfold runPlanningStageWith
    cases he : extractJsonRegion text with
    | none => simp [he]
    | some region =>
      simp only [he, Option.some_bind]
      cases hp : parse region with
      | error e => simp [hp, Except.toOption]
      | ok p => simp [hp, Except.toOption]
  · unfold runPlanningStageWith
    cases he : extractJsonRegion text with
    | none => simp [he, planningIntro, planningFailureEvents, hasStageStatus]
    | some region =>
      simp only [he, Option.some_bind]
      cases hp : parse region with
      | error e =>
        simp [hp, Except.toOption, planningIntro, planningFailureEvents, hasStageStatus]
      | ok p => simp [hp, Except.toOption, planningIntro, hasStageStatus]

/-- Counterexample for C9: a planner response whose plan has two queries
but a single search type parses successfully and is returned by the
planning stage — `queries.length === searchTypes.length` is not
enforced. -/
theorem plan_invariant_violated_cex :
    ((runPlanningStage (Except.ok
        "\x7b\"queries\":[\"a\",\"b\"],\"searchTypes\":[\"neural\"],\"rationale\":\"r\"\x7d")).2.map
        fun p => (p.queries.length, (p.searchTypes.getD []).length))
      = some (2, 1) := by
  decide

/-- Claim C9 (amended): the planning stage performs no validation of the
parsed plan — whatever plan the extracted region parses to is returned
verbatim, including plans that violate
`queries.length === searchTypes.length`; the stage establishes no plan
invariant. -/
theorem plan_returned_unvalidated (text : String) (p : SearchPlan)
    (h : (extractJsonRegion text).bind parsePlanJson = some p) :
    (runPlanningStage (Except.ok text)).2 = some p := by
  rw [planning_value_eq, h]

/-- Witness for C9 (amended): the counterexample response is returned
verbatim, with its mismatched query and search-type counts. -/
theorem plan_returned_unvalidated_witness :
    (runPlanningStage (Except.ok
        "\x7b\"queries\":[\"a\",\"b\"],\"searchTypes\":[\"neural\"],\"rationale\":\"r\"\x7d")).2
      = some ⟨["a", "b"], some ["neural"], none, none, some "r"⟩ :=
  plan_returned_unvalidated _ _ (by decide)

/-- Counterexample for C3: a valid request whose stream handler catches an
error — the stream consists of the single error event and is closed
without the `data: [DONE]` sentinel ever being sent. -/
theorem sentinel_missing_on_error_cex :
    POST ⟨TopicField.str "quantum computing", true, true, [], some "boom"⟩
        = RouteResponse.stream [errorChunk "boom"]
    ∧ doneChunk ∉ [errorChunk "boom"] := by
  refine ⟨rfl, ?_⟩
  decide

/-- Claim C3 (amended): when the inner execution path completes normally
the stream ends with the `data: [DONE]` sentinel, but when the stream
handler catches an error the stream ends with the single error event and
no sentinel is appended. -/
theorem stream_termination_amended (env : RouteEnv) : streamEndsProperly env = true := by
  unfold streamEndsProperly POST
  split_ifs with h1 h2 h3
  · rfl
  · rfl
  · rfl
  · cases he : env.runError with
    | none => simp [handleStream, List.getLast?_concat]
    | some e =>
      have hne : (doneChunk == errorChunk e) = false :=
        beq_eq_false_iff_ne.2 fun hx => errorChunk_ne_doneChunk e hx.symm
      simp [handleStream, List.getLast?_concat, List.count_append, List.count_cons,
        List.count_nil, hne]
      exact errorChunk_ne_doneChunk e

/-- Counterexample for C6: the two-character topic `"ab"` passes the
route's validation — `POST` opens the SSE stream instead of returning
HTTP 400. -/
theorem short_topic_accepted_cex :
    POST ⟨TopicField.str "ab", true, true, [], none⟩ = RouteResponse.stream [doneChunk] := rfl

/-- Claim C6 (amended): `POST /research` returns HTTP 400 with the
`Topic is required` body exactly for a missing, falsy (empty-string), or
non-string topic; any non-empty string topic — including two-character
topics such as `"ab"` — passes validation, and with both API keys present
the SSE stream is opened; no minimum-length check exists. -/
theorem topic_validation_amended (env : RouteEnv) : validationAmendedOk env = true := by
  unfold validationAmendedOk POST
  split_ifs with h1 h2 h3
  · simp [h1]
  · simp_all
  · simp_all
  · simp_all

theorem sandbox_gen_stopped (env : SbEnv) :
    (runResearchInSandboxGen env).1 = []
        ∨ (runResearchInSandboxGen env).1 = [SbAction.create, SbAction.stop] := by
  obtain ⟨tok, proj, cr, wr, inst, run⟩ := env
  unfold runResearchInSandboxGen
  dsimp only
  split_ifs
  · exact Or.inl rfl
  · exact Or.inl rfl
  · rcases cr with e | u
    · exact Or.inl rfl
    · dsimp only
      rcases wr with e2 | u2
      · exact Or.inr rfl
      · dsimp only
        rcases inst with e3 | ir
        · exact Or.inr rfl
        · dsimp only
          rcases run with e4 | rr
          · right
            split_ifs <;> rfl
          · right
            split_ifs <;> rfl

theorem sandbox_cb_stopped (env : SbEnv) :
    (runResearchInSandboxCb env).1 = []
        ∨ (runResearchInSandboxCb env).1 = [SbAction.create, SbAction.stop] := by
  obtain ⟨tok, proj, cr, wr, inst, run⟩ := env
  unfold runResearchInSandboxCb
  dsimp only
  split_ifs
  · exact Or.inl rfl
  · exact Or.inl rfl
  · rcases cr with e | u
    · exact Or.inl rfl
    · dsimp only
      rcases wr with e2 | u2
      · exact Or.inr rfl
      · dsimp only
        rcases inst with e3 | ir
        · exact Or.inr rfl
        · dsimp only
          rcases run with e4 | rr
          · exact Or.inr rfl
          · exact Or.inr rfl

/-- Claim C8: both remote-execution adapters tear the sandbox down on
every path — in every run of either `runResearchInSandbox` variant, the
lifecycle action trace is either empty (the sandbox was never created,
because credentials were missing or `Sandbox.create` itself threw) or
exactly a creation followed by a stop: every created sandbox handle is
stopped, whether the remote program succeeds, fails, or a step throws. -/
theorem sandbox_always_stopped (env : SbEnv) :
    ((runResearchInSandboxGen env).1 = []
        ∨ (runResearchInSandboxGen env).1 = [SbAction.create, SbAction.stop])
    ∧ ((runResearchInSandboxCb env).1 = []
        ∨ (runResearchInSandboxCb env).1 = [SbAction.create, SbAction.stop]) :=
  ⟨sandbox_gen_stopped env, sandbox_cb_stopped env⟩

end DrAgent
